import Mathlib

/-!
# Train-network simulation engine — shallow embedding

A shallow embedding of the discrete-time train simulation core of the
repository (`app/services/other/simulation/`): the SQLAlchemy data model
(`models.py`), the passenger and train services (`passenger_service.py`,
`train_service.py`) and the stepper (`simulation_engine.py`).

Modelling choices, each mirroring one construct of the source:

* Rows become Lean structures; the shared store (`Session`) is a pair of
  database snapshots `committed`/`current`.  `db.commit()` copies `current`
  into `committed`; `db.rollback()` copies `committed` back into `current`.
  Queries and ORM attribute assignment act on `current`.  This captures
  SQLAlchemy session semantics at the granularity the engine uses it
  (no nested transactions appear in the source).
* `datetime` values are minutes on an integer axis (`Int`); `timedelta
  (minutes=m)` is integer addition.  Exact calendar representation is
  irrelevant to every branch the engine takes: only `+`, `-`, `>=` and
  parse success/failure of stored strings are used.
* A route waypoint is stored as JSON; its `planned_arrival_time` entry is
  either absent/null, or a string that `datetime.fromisoformat` parses or
  rejects.  We model the entry as `Option (Option Int)`: `none` = absent
  or null (falsy in Python), `some (some t)` = string parsing to time `t`,
  `some none` = string `fromisoformat` raises `ValueError` on.
* Python exceptions that the engine raises or propagates become the
  `SimError` type; the `try/except: rollback; raise` wrappers become
  explicit rollbacks paired with an `Except` result.
* Primary-key autoincrement is irrelevant to the claims; `create_passenger`
  takes the id of the new row as an argument.
-/

namespace TrainSim

/-- `Train.status` column: scheduled/running/delayed/completed/cancelled. -/
inductive TrainStatus
  | scheduled | running | delayed | completed | cancelled
  deriving DecidableEq, Repr

/-- `Train.current_location_status` column: at_station/between_stations. -/
inductive LocStatus
  | at_station | between_stations
  deriving DecidableEq, Repr

/-- `Passenger.status` column: waiting/boarded/arrived/exited. -/
inductive PStatus
  | waiting | boarded | arrived | exited
  deriving DecidableEq, Repr

/-- One entry of `Route.waypoints` (a JSON list in `models.py`).  The engine
reads only `station_id` and `planned_arrival_time` via `.get`; both may be
absent.  See the module comment for the `Option (Option Int)` encoding of
the stored timestamp string. -/
structure Waypoint where
  station_id : Option Nat
  planned_arrival_time : Option (Option Int)
  deriving DecidableEq, Repr

/-- `Route` row (`models.py`); only the columns the engine reads. -/
structure RouteRec where
  route_id : Nat
  waypoints : List Waypoint
  deriving DecidableEq, Repr

/-- `Train` row (`models.py`); only the columns the engine and the train
service read or write. -/
structure TrainRec where
  train_id : Nat
  route_id : Nat
  current_station_id : Option Nat
  current_track_id : Option Nat
  passenger_capacity : Int
  current_passenger_count : Int
  scheduled_departure : Option Int
  actual_departure : Option Int
  actual_arrival : Option Int
  delay_minutes : Int
  status : TrainStatus
  current_location_status : LocStatus
  current_waypoint_index : Nat
  deriving DecidableEq, Repr

/-- `Passenger` row (`models.py`).  `current_station_id` is declared
non-null, but `deboard_passenger` writes the waypoint's possibly-missing
`station_id` into it, so the model keeps it optional. -/
structure PassengerRec where
  passenger_id : Nat
  origin_station_id : Nat
  destination_station_id : Nat
  current_station_id : Option Nat
  boarded_train_id : Option Nat
  status : PStatus
  boarding_time : Option Int
  arrival_time : Option Int
  deriving DecidableEq, Repr

/-- `SimulationState` row (`models.py`): the singleton clock record. -/
structure SimStateRec where
  current_simulated_datetime : Int
  time_scale : Int
  is_running : Bool
  last_updated : Int
  deriving DecidableEq, Repr

/-- The shared store: one snapshot of every table the simulation touches.
Stations carry no behaviour beyond existence checks, so only their ids are
kept.  Lists are in primary-key (creation) order, the order an unordered
SQLite query returns rows in. -/
structure DB where
  stations : List Nat
  routes : List RouteRec
  trains : List TrainRec
  passengers : List PassengerRec
  sim : Option SimStateRec
  deriving DecidableEq, Repr

/-- A SQLAlchemy session over the store: `committed` is the durable state,
`current` the in-transaction view that queries see and ORM assignments
mutate. -/
structure Session where
  committed : DB
  current : DB
  deriving DecidableEq, Repr

/-- `db.commit()`: make the in-transaction view durable. -/
def commitS (s : Session) : Session := ⟨s.current, s.current⟩

/-- `db.rollback()`: discard uncommitted changes. -/
def rollbackS (s : Session) : Session := ⟨s.committed, s.committed⟩

/-- Errors raised by the modelled code paths.  `notInit` is
`ValueError("Simulation not initialized")`; `invalidTimestamp` is the
`ValueError` out of `datetime.fromisoformat` on a malformed waypoint
timestamp; the last two are `create_passenger`'s validation errors. -/
inductive SimError
  | notInit
  | invalidTimestamp
  | stationsMissing
  | originEqualsDestination
  deriving DecidableEq, Repr

deriving instance DecidableEq for Except

/-- `query(Passenger).filter(passenger_id == pid).first()`. -/
def lookupP (l : List PassengerRec) (pid : Nat) : Option PassengerRec :=
  (l.filter (fun p => p.passenger_id == pid)).head?

/-- `query(Train).filter(train_id == tid).first()`. -/
def lookupT (l : List TrainRec) (tid : Nat) : Option TrainRec :=
  (l.filter (fun t => t.train_id == tid)).head?

/-- `query(Route).filter(route_id == rid).first()`. -/
def lookupR (l : List RouteRec) (rid : Nat) : Option RouteRec :=
  (l.filter (fun r => r.route_id == rid)).head?

/-- ORM attribute assignment on the passenger row with primary key `pid`
(the identity map guarantees at most one live object per key). -/
def updP (l : List PassengerRec) (pid : Nat) (f : PassengerRec → PassengerRec) :
    List PassengerRec :=
  l.map (fun q => if q.passenger_id == pid then f q else q)

/-- ORM attribute assignment on the train row with primary key `tid`. -/
def updT (l : List TrainRec) (tid : Nat) (f : TrainRec → TrainRec) :
    List TrainRec :=
  l.map (fun t => if t.train_id == tid then f t else t)

/-- Replace the passenger table of the current snapshot. -/
def DB.withPassengers (db : DB) (l : List PassengerRec) : DB :=
  { db with passengers := l }

/-- Replace the train table of the current snapshot. -/
def DB.withTrains (db : DB) (l : List TrainRec) : DB :=
  { db with trains := l }

/-- Python's `xs[:n]` for an `int` slice bound `n`, as the engine uses it in
`passengers_to_board = waiting_passengers[:available_seats]`: a nonnegative
bound truncates from the front; a negative bound drops `|n|` elements from
the end. -/
def pySliceTo {α : Type} (xs : List α) (n : Int) : List α :=
  if 0 ≤ n then xs.take n.toNat else xs.take ((xs.length : Int) + n).toNat

/-! ## Passenger service (`passenger_service.py`) -/

/-- `PassengerService.get_passenger`. -/
def get_passenger (db : DB) (pid : Nat) : Option PassengerRec :=
  lookupP db.passengers pid

/-- `PassengerService.get_waiting_passengers_at_station`: passengers with
`current_station_id == station_id` and `status == "waiting"`.  The engine
passes the waypoint's possibly-missing station id, so the argument is an
`Option`; SQL `col = NULL` never holds, while `col IS NULL` (SQLAlchemy's
rendering of `== None`) matches null cells — both are `Option` equality
here. -/
def get_waiting_passengers_at_station (db : DB) (sid : Option Nat) :
    List PassengerRec :=
  db.passengers.filter (fun p =>
    p.current_station_id == sid && p.status == PStatus.waiting)

/-- `PassengerService.get_passengers_getting_off_at_station`: passengers
boarded on this train whose destination is this station. -/
def get_passengers_getting_off_at_station (db : DB) (tid : Nat)
    (sid : Option Nat) : List PassengerRec :=
  db.passengers.filter (fun p =>
    p.boarded_train_id == some tid && some p.destination_station_id == sid
      && p.status == PStatus.boarded)

/-- The field writes of `PassengerService.board_passenger`. -/
def boardFields (tid : Nat) (now : Int) (p : PassengerRec) : PassengerRec :=
  { p with boarded_train_id := some tid, status := PStatus.boarded,
           boarding_time := some now }

/-- The field writes of `PassengerService.deboard_passenger`. -/
def deboardFields (sid : Option Nat) (now : Int) (p : PassengerRec) :
    PassengerRec :=
  { p with boarded_train_id := none, current_station_id := sid,
           status := PStatus.arrived, arrival_time := some now }

/-- `PassengerService.board_passenger`: no-op returning `None` unless the
passenger exists with status `waiting`; otherwise mutate and commit.  The
engine ignores the returned row, so only the session is produced. -/
def board_passenger (s : Session) (pid tid : Nat) (now : Int) : Session :=
  match get_passenger s.current pid with
  | none => s
  | some p =>
    if p.status = PStatus.waiting then
      commitS { s with
        current := s.current.withPassengers
          (updP s.current.passengers pid (boardFields tid now)) }
    else s

/-- `PassengerService.deboard_passenger`: no-op returning `None` unless the
passenger exists with status `boarded`; otherwise mutate and commit. -/
def deboard_passenger (s : Session) (pid : Nat) (sid : Option Nat)
    (now : Int) : Session :=
  match get_passenger s.current pid with
  | none => s
  | some p =>
    if p.status = PStatus.boarded then
      commitS { s with
        current := s.current.withPassengers
          (updP s.current.passengers pid (deboardFields sid now)) }
    else s

/-- `PassengerService.create_passenger`: validate that all three stations
exist and that origin differs from destination, then insert a `waiting`
passenger and commit; validation failures raise (session rolled back).
`newId` stands for the autoincrement primary key of the inserted row. -/
def create_passenger (s : Session) (origin dest cur newId : Nat) :
    Except SimError PassengerRec × Session :=
  if origin ∈ s.current.stations ∧ dest ∈ s.current.stations
      ∧ cur ∈ s.current.stations then
    if origin = dest then (.error .originEqualsDestination, rollbackS s)
    else
      let p : PassengerRec :=
        { passenger_id := newId, origin_station_id := origin,
          destination_station_id := dest, current_station_id := some cur,
          boarded_train_id := none, status := PStatus.waiting,
          boarding_time := none, arrival_time := none }
      (.ok p, commitS { s with
        current := s.current.withPassengers (s.current.passengers ++ [p]) })
  else (.error .stationsMissing, rollbackS s)

/-! ## Train service (`train_service.py`) -/

/-- The keyword arguments of `TrainService.update_train(db, id, **kwargs)`:
any subset of the train row's mutable columns, each `some v` meaning the
attribute is present in `kwargs` and set to `v`.  The PATCH schema
(`TrainPatchSchema`) exposes in particular `passenger_capacity`,
`current_passenger_count` and `status`. -/
structure TrainKwargs where
  route_id : Option Nat := none
  current_station_id : Option (Option Nat) := none
  current_track_id : Option (Option Nat) := none
  passenger_capacity : Option Int := none
  current_passenger_count : Option Int := none
  scheduled_departure : Option (Option Int) := none
  actual_departure : Option (Option Int) := none
  actual_arrival : Option (Option Int) := none
  delay_minutes : Option Int := none
  status : Option TrainStatus := none
  current_location_status : Option LocStatus := none
  current_waypoint_index : Option Nat := none
  deriving Repr

/-- `setattr(train, key, value)` for each supplied keyword argument. -/
def applyKwargs (k : TrainKwargs) (t : TrainRec) : TrainRec :=
  { t with
    route_id := k.route_id.getD t.route_id
    current_station_id := k.current_station_id.getD t.current_station_id
    current_track_id := k.current_track_id.getD t.current_track_id
    passenger_capacity := k.passenger_capacity.getD t.passenger_capacity
    current_passenger_count :=
      k.current_passenger_count.getD t.current_passenger_count
    scheduled_departure := k.scheduled_departure.getD t.scheduled_departure
    actual_departure := k.actual_departure.getD t.actual_departure
    actual_arrival := k.actual_arrival.getD t.actual_arrival
    delay_minutes := k.delay_minutes.getD t.delay_minutes
    status := k.status.getD t.status
    current_location_status :=
      k.current_location_status.getD t.current_location_status
    current_waypoint_index :=
      k.current_waypoint_index.getD t.current_waypoint_index }

/-- `TrainService.update_train`: fetch by id (`None` if absent), overwrite
every supplied attribute without validation, commit. -/
def update_train (s : Session) (tid : Nat) (k : TrainKwargs) :
    Option TrainRec × Session :=
  match lookupT s.current.trains tid with
  | none => (none, s)
  | some _ =>
    let s' := commitS { s with
      current := s.current.withTrains (updT s.current.trains tid (applyKwargs k)) }
    (lookupT s'.current.trains tid, s')

/-! ## Simulation engine (`simulation_engine.py`) -/

/-- `train.current_passenger_count -= 1`. -/
def decCount (t : TrainRec) : TrainRec :=
  { t with current_passenger_count := t.current_passenger_count - 1 }

/-- `train.current_passenger_count += 1`. -/
def incCount (t : TrainRec) : TrainRec :=
  { t with current_passenger_count := t.current_passenger_count + 1 }

/-- Apply an ORM train mutation inside the current snapshot of a session. -/
def mutTrain (s : Session) (tid : Nat) (f : TrainRec → TrainRec) : Session :=
  { s with current := s.current.withTrains (updT s.current.trains tid f) }

/-- The deboarding loop of `_handle_passenger_exchange`: for each selected
passenger, `deboard_passenger` (which commits) then
`train.current_passenger_count -= 1` (uncommitted until the next commit). -/
def deboardLoop (tid : Nat) (sid : Option Nat) (now : Int)
    (L : List PassengerRec) (s : Session) : Session :=
  L.foldl (fun acc p =>
    mutTrain (deboard_passenger acc p.passenger_id sid now) tid decCount) s

/-- The boarding loop of `_handle_passenger_exchange`: for each selected
passenger, `board_passenger` (which commits) then
`train.current_passenger_count += 1`. -/
def boardLoop (tid : Nat) (now : Int) (L : List PassengerRec)
    (s : Session) : Session :=
  L.foldl (fun acc p =>
    mutTrain (board_passenger acc p.passenger_id tid now) tid incCount) s

/-- `SimulationEngine._handle_passenger_exchange`: deboard every passenger
of this train destined for this station (decrementing the count per
passenger), then board the waiting passengers up to
`passenger_capacity - current_passenger_count` seats (incrementing per
passenger).  Each board/deboard call commits the session internally. -/
def handle_passenger_exchange (s : Session) (tid : Nat) (sid : Option Nat)
    (now : Int) : Session :=
  let passengers_to_deboard :=
    get_passengers_getting_off_at_station s.current tid sid
  let s1 := deboardLoop tid sid now passengers_to_deboard s
  let waiting_passengers := get_waiting_passengers_at_station s1.current sid
  match lookupT s1.current.trains tid with
  | none => s1
  | some train =>
    let available_seats : Int :=
      train.passenger_capacity - train.current_passenger_count
    let passengers_to_board := pySliceTo waiting_passengers available_seats
    boardLoop tid now passengers_to_board s1

/-- The field writes of the `scheduled → running` departure branch:
status, `actual_departure`, and — when the route has waypoints — the first
waypoint's station and waypoint index 0. -/
def departFields (now : Int) (waypoints : List Waypoint) (t : TrainRec) :
    TrainRec :=
  let t1 := { t with status := TrainStatus.running, actual_departure := some now }
  match waypoints with
  | [] => t1
  | fw :: _ =>
    { t1 with current_station_id := fw.station_id, current_waypoint_index := 0 }

/-- `train.current_location_status = "between_stations"`. -/
def betweenFields (t : TrainRec) : TrainRec :=
  { t with current_location_status := LocStatus.between_stations }

/-- The field writes on arrival at the current waypoint's station: position
fields, plus the delay recomputation guarded by `actual_departure`; for
integer-minute datetimes `elapsed - planned_duration` is `now -
planned_arrival`. -/
def arriveFields (sid : Option Nat) (now planned_arrival : Int)
    (t : TrainRec) : TrainRec :=
  let t1 := { t with current_station_id := sid, current_track_id := none,
                     current_location_status := LocStatus.at_station }
  match t.actual_departure with
  | some _ => { t1 with delay_minutes := max 0 (now - planned_arrival) }
  | none => t1

/-- The field writes when the arrival was at the last waypoint. -/
def completeFields (now : Int) (t : TrainRec) : TrainRec :=
  { t with status := TrainStatus.completed, actual_arrival := some now }

/-- `train.current_waypoint_index += 1`. -/
def advanceFields (t : TrainRec) : TrainRec :=
  { t with current_waypoint_index := t.current_waypoint_index + 1 }

/-- `SimulationEngine._update_train_state`, one train's transition for the
new simulated time.  The departure check (`scheduled`) and the arrival
check (`running`/`delayed`) are an `if`/`elif` pair in the source: at most
one of them fires per call.  A raised `ValueError` from
`datetime.fromisoformat` (`.error .invalidTimestamp`) occurs before any
mutation of this call. -/
def update_train_state (s : Session) (tid : Nat) (now : Int) :
    Except SimError Session :=
  match lookupT s.current.trains tid with
  | none => .ok s
  | some train =>
  if train.status = TrainStatus.completed ∨ train.status = TrainStatus.cancelled then
    .ok s
  else
    match lookupR s.current.routes train.route_id with
    | none => .ok s
    | some route =>
    if route.waypoints.isEmpty then .ok s
    else
      let waypoints := route.waypoints
      if train.status = TrainStatus.scheduled ∧ train.scheduled_departure.isSome then
        match train.scheduled_departure with
        | none => .ok s
        | some dep =>
          if dep ≤ now then .ok (mutTrain s tid (departFields now waypoints))
          else .ok s
      else if train.status = TrainStatus.running ∨ train.status = TrainStatus.delayed then
        if h : train.current_waypoint_index < waypoints.length then
          let cw := waypoints.get ⟨train.current_waypoint_index, h⟩
          match cw.planned_arrival_time with
          | none => .ok (mutTrain s tid betweenFields)
          | some parsed =>
            match parsed with
            | none => .error .invalidTimestamp
            | some planned_arrival =>
              if planned_arrival ≤ now then
                let sid := cw.station_id
                let s1 := mutTrain s tid (arriveFields sid now planned_arrival)
                let s2 := handle_passenger_exchange s1 tid sid now
                if train.current_waypoint_index = waypoints.length - 1 then
                  .ok (mutTrain s2 tid (completeFields now))
                else
                  .ok (mutTrain s2 tid advanceFields)
              else .ok (mutTrain s tid betweenFields)
        else .ok s
      else .ok s

/-- The status filter of `step_simulation`'s train query:
`Train.status.in_(["scheduled", "running", "delayed"])`. -/
def isActiveStatus (t : TrainRec) : Bool :=
  t.status == TrainStatus.scheduled || t.status == TrainStatus.running
    || t.status == TrainStatus.delayed

/-- The `for train in trains:` loop of `step_simulation`; on the first
raised error the loop stops and the session at that point is what the
enclosing `except` block rolls back. -/
def runUpdates : List Nat → Session → Int → Except (SimError × Session) Session
  | [], s, _ => .ok s
  | tid :: rest, s, now =>
    match update_train_state s tid now with
    | .error e => .error (e, s)
    | .ok s' => runUpdates rest s' now

/-- `SimulationEngine.step_simulation`: require the singleton clock record,
advance it by `minutes_to_advance` minutes, stamp `last_updated` with the
wall-clock time of the call, update every scheduled/running/delayed train
in storage order, then commit; any raised error rolls the session back and
is re-raised. -/
def step_simulation (s : Session) (wall : Int) (minutes_to_advance : Int) :
    Except SimError SimStateRec × Session :=
  match s.current.sim with
  | none => (.error .notInit, rollbackS s)
  | some sim0 =>
    let sim1 := { sim0 with
      current_simulated_datetime :=
        sim0.current_simulated_datetime + minutes_to_advance,
      last_updated := wall }
    let s1 : Session := { s with current := { s.current with sim := some sim1 } }
    let trains := s1.current.trains.filter isActiveStatus
    match runUpdates (trains.map (·.train_id)) s1
        sim1.current_simulated_datetime with
    | .error (e, serr) => (.error e, rollbackS serr)
    | .ok s2 =>
      let s3 := commitS s2
      match s3.current.sim with
      | some simF => (.ok simF, s3)
      | none => (.error .notInit, s3)

/-- A sequence of `step` calls (wall-clock stamp, minutes) as an external
driver would issue them; each call acts on the session the previous one
returned. -/
def stepMany (s : Session) (calls : List (Int × Int)) : Session :=
  calls.foldl (fun acc c => (step_simulation acc c.1 c.2).2) s

/-! ## Primary-key projections -/

/-- The primary keys of a passenger table. -/
def pids (l : List PassengerRec) : List Nat := l.map (·.passenger_id)

/-- The primary keys of a train table. -/
def tids (l : List TrainRec) : List Nat := l.map (·.train_id)

/-- The session as `step_simulation` sees it right after advancing the
clock: the in-transaction view carries the new simulated datetime and the
wall-clock `last_updated` stamp, nothing else has changed. -/
def stepEntry (s : Session) (wall m : Int) (st0 : SimStateRec) : Session :=
  { s with current := { s.current with sim := some { st0 with
      current_simulated_datetime := st0.current_simulated_datetime + m,
      last_updated := wall } } }

/-! ## Specification predicates -/

/-- The ledger predicate "on board train `tid`". -/
def boardedPred (tid : Nat) (q : PassengerRec) : Bool :=
  q.boarded_train_id == some tid && q.status == PStatus.boarded

/-- Number of passengers the ledger says are on board train `tid`. -/
def boardedCount (db : DB) (tid : Nat) : Nat :=
  db.passengers.countP (boardedPred tid)

/-- Capacity invariant together with ledger consistency: every train's
`current_passenger_count` equals the count of passengers boarded on it and
lies within `[0, passenger_capacity]`. -/
def CountsOk (db : DB) : Prop :=
  ∀ t ∈ db.trains,
    t.current_passenger_count = (boardedCount db t.train_id : Int) ∧
    0 ≤ t.current_passenger_count ∧
    t.current_passenger_count ≤ t.passenger_capacity

/-- Primary keys are distinct, as the database guarantees. -/
def WFdb (db : DB) : Prop :=
  (tids db.trains).Nodup ∧ (pids db.passengers).Nodup

/-- One passenger row satisfies "status is boarded iff a train is set". -/
def pInv (p : PassengerRec) : Prop :=
  p.status = PStatus.boarded ↔ p.boarded_train_id ≠ none

/-- Every passenger row satisfies `pInv`. -/
def PInvAll (db : DB) : Prop := ∀ p ∈ db.passengers, pInv p

/-- Loop relation for the stepper's update loop, relative to the loop-entry
snapshot `pre`: keys and row count unchanged, rows whose key is outside the
active set `A` unchanged, waypoint indices grown by at most one. -/
def LoopB (A : List Nat) (pre db : DB) : Prop :=
  db.trains.length = pre.trains.length ∧
  ∀ (i : Nat) (a b : TrainRec), pre.trains[i]? = some a → db.trains[i]? = some b →
    b.train_id = a.train_id ∧ (a.train_id ∉ A → b = a) ∧
    b.current_waypoint_index ≤ a.current_waypoint_index + 1

/-- Rows whose key is still in the unprocessed suffix `rem` of the update
loop are exactly as in the loop-entry snapshot. -/
def FreshOn (rem : List Nat) (pre db : DB) : Prop :=
  ∀ (i : Nat) (a b : TrainRec), pre.trains[i]? = some a → db.trains[i]? = some b →
    a.train_id ∈ rem → b = a

/-- Mark-by-key form of the deboarding loop's net effect on the passenger
table: rows whose key is in `K` get the `deboard_passenger` field writes. -/
def deboardMark (K : List Nat) (sid : Option Nat) (now : Int)
    (q : PassengerRec) : PassengerRec :=
  if K.contains q.passenger_id then deboardFields sid now q else q

/-- Mark-by-key form of the boarding loop's net effect. -/
def boardMark (K : List Nat) (tid : Nat) (now : Int)
    (q : PassengerRec) : PassengerRec :=
  if K.contains q.passenger_id then boardFields tid now q else q

/-- Net count change of the deboarding loop on the exchanged train. -/
def subCount (d : Int) (t : TrainRec) : TrainRec :=
  { t with current_passenger_count := t.current_passenger_count - d }

/-- Net count change of the boarding loop on the exchanged train. -/
def addCount (d : Int) (t : TrainRec) : TrainRec :=
  { t with current_passenger_count := t.current_passenger_count + d }

/-- The deboarding selection of one exchange, as a function of the store. -/
def exchDeb (db : DB) (tid : Nat) (sid : Option Nat) : List PassengerRec :=
  get_passengers_getting_off_at_station db tid sid

/-- The waiting passengers at the visited station. -/
def exchWait (db : DB) (sid : Option Nat) : List PassengerRec :=
  get_waiting_passengers_at_station db sid

/-- `available_seats` as the boarding phase computes it: capacity minus the
post-deboarding count of the train row `t` the exchange found. -/
def exchSeats (db : DB) (tid : Nat) (sid : Option Nat) (t : TrainRec) : Int :=
  t.passenger_capacity
    - (t.current_passenger_count - ((exchDeb db tid sid).length : Int))

/-- The boarding selection of one exchange: the Python slice
`waiting_passengers[:available_seats]`. -/
def exchBoard (db : DB) (tid : Nat) (sid : Option Nat) (t : TrainRec) :
    List PassengerRec :=
  pySliceTo (exchWait db sid) (exchSeats db tid sid t)

/-! ## Concrete scenarios

Small stores used to decide the concrete behaviour of the engine.  Station
ids 1, 2, 3 exist; time `T` of the spec's Scenario A is minute 0. -/

/-- Scenario A's route: S1 at order 0 (no planned arrival — the origin),
S2 at order 1 with planned arrival `T+60`. -/
def routeA : RouteRec := ⟨10, [⟨some 1, none⟩, ⟨some 2, some (some 60)⟩]⟩

/-- Scenario A's Train X: capacity 2, `scheduled_departure = T`. -/
def trainX : TrainRec :=
  ⟨100, 10, none, none, 2, 0, some 0, none, none, 0,
    TrainStatus.scheduled, LocStatus.at_station, 0⟩

def dbA : DB := ⟨[1, 2], [routeA], [trainX], [], some ⟨0, 60, false, 0⟩⟩

def sessionA : Session := ⟨dbA, dbA⟩

/-- A route whose single waypoint carries an unparsable timestamp string. -/
def routeBad : RouteRec := ⟨12, [⟨some 3, some none⟩]⟩

/-- A running train whose current waypoint is the malformed one. -/
def trainB : TrainRec :=
  ⟨2, 12, none, none, 2, 0, none, some 0, none, 0,
    TrainStatus.running, LocStatus.between_stations, 0⟩

def routeGood : RouteRec := ⟨11, [⟨some 1, none⟩, ⟨some 2, some (some 60)⟩]⟩

/-- A scheduled train due to depart at minute 0 (its update mutates but
does not commit). -/
def trainA : TrainRec :=
  ⟨1, 11, none, none, 2, 0, some 0, none, none, 0,
    TrainStatus.scheduled, LocStatus.at_station, 0⟩

/-- A healthy train followed by the malformed one. -/
def dbMixed : DB :=
  ⟨[1, 2, 3], [routeGood, routeBad], [trainA, trainB], [],
    some ⟨0, 60, false, 0⟩⟩

def sessionMixed : Session := ⟨dbMixed, dbMixed⟩

/-- A route on which the first train arrives at station 1 at minute 50. -/
def routeArr : RouteRec :=
  ⟨21, [⟨some 1, some (some 50)⟩, ⟨some 2, some (some 70)⟩]⟩

def trainArr : TrainRec :=
  ⟨1, 21, none, none, 2, 0, none, some 0, none, 0,
    TrainStatus.running, LocStatus.between_stations, 0⟩

def paxWaiting : PassengerRec :=
  ⟨7, 1, 2, some 1, none, PStatus.waiting, none, none⟩

/-- First train boards a passenger (committing mid-step), then the second
train's malformed waypoint raises. -/
def dbBoardThenFail : DB :=
  ⟨[1, 2, 3], [routeArr, routeBad], [trainArr, trainB], [paxWaiting],
    some ⟨0, 60, false, 0⟩⟩

def sessionBoardThenFail : Session := ⟨dbBoardThenFail, dbBoardThenFail⟩

/-- A train of capacity 2 with an empty cabin, target of a PATCH. -/
def trainSmall : TrainRec :=
  ⟨1, 11, none, none, 2, 0, none, none, none, 0,
    TrainStatus.scheduled, LocStatus.at_station, 0⟩

def dbPatch : DB := ⟨[1], [], [trainSmall], [], none⟩

def sessionPatch : Session := ⟨dbPatch, dbPatch⟩

def dbEmpty : DB := ⟨[], [], [], [], none⟩

/-- No `SimulationState` row exists. -/
def sessionEmpty : Session := ⟨dbEmpty, dbEmpty⟩

/-- An arrival-exchange scenario: train 5 (capacity 2, one passenger on
board) arrives at station 9 where passenger 1 must get off and passengers
2, 3, 4 wait. -/
def trainEx : TrainRec :=
  ⟨5, 30, some 9, none, 2, 1, none, some 0, none, 0,
    TrainStatus.running, LocStatus.at_station, 0⟩

def paxOff : PassengerRec :=
  ⟨1, 8, 9, some 8, some 5, PStatus.boarded, some 0, none⟩

def paxW1 : PassengerRec := ⟨2, 9, 11, some 9, none, PStatus.waiting, none, none⟩

def paxW2 : PassengerRec := ⟨3, 9, 11, some 9, none, PStatus.waiting, none, none⟩

def paxW3 : PassengerRec := ⟨4, 9, 11, some 9, none, PStatus.waiting, none, none⟩

def dbEx : DB :=
  ⟨[8, 9, 11], [], [trainEx], [paxOff, paxW1, paxW2, paxW3], none⟩

def sessionEx : Session := ⟨dbEx, dbEx⟩

/-- Train X as the departure branch leaves it: running, departed at minute
60, placed at waypoint 0's station S1. -/
def trainXdeparted : TrainRec :=
  ⟨100, 10, some 1, none, 2, 0, some 0, some 60, none, 0,
    TrainStatus.running, LocStatus.at_station, 0⟩

/-- Train X after a further step: still at waypoint 0, now flagged
`between_stations` since waypoint 0 has no planned arrival time. -/
def trainXbetween : TrainRec :=
  ⟨100, 10, some 1, none, 2, 0, some 0, some 60, none, 0,
    TrainStatus.running, LocStatus.between_stations, 0⟩

/-- A running train whose current waypoint (order 0) has no planned arrival
time at all. -/
def routeNoTime : RouteRec := ⟨40, [⟨some 1, none⟩, ⟨some 2, some (some 60)⟩]⟩

def trainNoTime : TrainRec :=
  ⟨4, 40, some 1, none, 2, 0, none, some 0, none, 0,
    TrainStatus.running, LocStatus.at_station, 0⟩

/-! ## Row-wise train-table relations

`EqOutside tid pre db`: the train table of `db` is that of `pre` with at
most the row keyed `tid` changed, and even that row keeps its key and its
waypoint index.  `StepB` relaxes the index condition to "grew by at most
one".  These relations carry the per-step effects of
`_update_train_state` through the update loop. -/

def EqOutside (tid : Nat) (pre db : DB) : Prop :=
  db.trains.length = pre.trains.length ∧
  ∀ (i : Nat) (a b : TrainRec), pre.trains[i]? = some a → db.trains[i]? = some b →
    b.train_id = a.train_id ∧ (a.train_id ≠ tid → b = a) ∧
    b.current_waypoint_index = a.current_waypoint_index

def StepB (tid : Nat) (pre db : DB) : Prop :=
  db.trains.length = pre.trains.length ∧
  ∀ (i : Nat) (a b : TrainRec), pre.trains[i]? = some a → db.trains[i]? = some b →
    b.train_id = a.train_id ∧ (a.train_id ≠ tid → b = a) ∧
    b.current_waypoint_index ≤ a.current_waypoint_index + 1

/-- What one successful `_update_train_state` call may do to the session:
only the processed train's row changes (its index by at most one), a
durable snapshot it leaves is one of its own intermediate views, and the
clock, topology and passenger keys are untouched in the in-transaction
view. -/
def UTSOk (s s' : Session) (tid : Nat) : Prop :=
  StepB tid s.current s'.current ∧
  (s'.committed = s.committed ∨ StepB tid s.current s'.committed) ∧
  s'.current.sim = s.current.sim ∧
  s'.current.routes = s.current.routes ∧
  s'.current.stations = s.current.stations ∧
  pids s'.current.passengers = pids s.current.passengers


/-! ## List-level lemmas about keyed lookups and updates -/

theorem foldl_pres {α β : Type} (P : β → Prop) (f : β → α → β)
    (hf : ∀ b a, P b → P (f b a)) :
    ∀ (L : List α) (b : β), P b → P (L.foldl f b) := by
  intro L
  induction L with
  | nil => intro b hb; simpa using hb
  | cons a L ih => intro b hb; exact ih _ (hf _ _ hb)

theorem mem_of_lookupP {l : List PassengerRec} {pid : Nat}
    {p : PassengerRec} (h : lookupP l pid = some p) :
    p ∈ l ∧ p.passenger_id = pid := by
  have hm : p ∈ l.filter (fun q => q.passenger_id == pid) :=
    List.mem_of_mem_head? (by simp [lookupP] at h; simp [h])
  rcases List.mem_filter.mp hm with ⟨h1, h2⟩
  exact ⟨h1, by simpa using h2⟩

theorem mem_of_lookupT {l : List TrainRec} {tid : Nat}
    {t : TrainRec} (h : lookupT l tid = some t) :
    t ∈ l ∧ t.train_id = tid := by
  have hm : t ∈ l.filter (fun u => u.train_id == tid) :=
    List.mem_of_mem_head? (by simp [lookupT] at h; simp [h])
  rcases List.mem_filter.mp hm with ⟨h1, h2⟩
  exact ⟨h1, by simpa using h2⟩

/-- A keyed lookup through any id-preserving row transformation. -/
theorem lookupP_map (l : List PassengerRec) (g : PassengerRec → PassengerRec)
    (hg : ∀ p, (g p).passenger_id = p.passenger_id) (qid : Nat) :
    lookupP (l.map g) qid = (lookupP l qid).map g := by
  unfold lookupP
  rw [List.filter_map, List.head?_map]
  have he : l.filter ((fun p => p.passenger_id == qid) ∘ g)
      = l.filter (fun p => p.passenger_id == qid) :=
    List.filter_congr (fun a _ => by simp [Function.comp, hg])
  rw [he]

theorem lookupT_map (l : List TrainRec) (g : TrainRec → TrainRec)
    (hg : ∀ t, (g t).train_id = t.train_id) (qid : Nat) :
    lookupT (l.map g) qid = (lookupT l qid).map g := by
  unfold lookupT
  rw [List.filter_map, List.head?_map]
  have he : l.filter ((fun t => t.train_id == qid) ∘ g)
      = l.filter (fun t => t.train_id == qid) :=
    List.filter_congr (fun a _ => by simp [Function.comp, hg])
  rw [he]

theorem pids_map (l : List PassengerRec) (g : PassengerRec → PassengerRec)
    (hg : ∀ p, (g p).passenger_id = p.passenger_id) :
    pids (l.map g) = pids l := by
  unfold pids
  rw [List.map_map]
  exact List.map_congr_left (fun a _ => hg a)

theorem tids_map (l : List TrainRec) (g : TrainRec → TrainRec)
    (hg : ∀ t, (g t).train_id = t.train_id) :
    tids (l.map g) = tids l := by
  unfold tids
  rw [List.map_map]
  exact List.map_congr_left (fun a _ => hg a)

/-- In a table with distinct primary keys, lookup of a member's key finds
that member. -/
theorem lookupP_of_mem {l : List PassengerRec} {p : PassengerRec}
    (hnd : (pids l).Nodup) (hm : p ∈ l) : lookupP l p.passenger_id = some p := by
  induction l with
  | nil => cases hm
  | cons a l ih =>
    rcases List.mem_cons.mp hm with rfl | hm'
    · unfold lookupP
      rw [List.filter_cons, if_pos (by simp)]
      rfl
    · have hne : a.passenger_id ≠ p.passenger_id := by
        intro he
        exact (List.nodup_cons.mp hnd).1
          (by simpa [he] using List.mem_map_of_mem (·.passenger_id) hm')
      have ht := ih (List.nodup_cons.mp hnd).2 hm'
      unfold lookupP at ht ⊢
      rw [List.filter_cons, if_neg (by simp [hne])]
      exact ht

theorem lookupT_of_mem {l : List TrainRec} {t : TrainRec}
    (hnd : (tids l).Nodup) (hm : t ∈ l) : lookupT l t.train_id = some t := by
  induction l with
  | nil => cases hm
  | cons a l ih =>
    rcases List.mem_cons.mp hm with rfl | hm'
    · unfold lookupT
      rw [List.filter_cons, if_pos (by simp)]
      rfl
    · have hne : a.train_id ≠ t.train_id := by
        intro he
        exact (List.nodup_cons.mp hnd).1
          (by simpa [he] using List.mem_map_of_mem (·.train_id) hm')
      have ht := ih (List.nodup_cons.mp hnd).2 hm'
      unfold lookupT at ht ⊢
      rw [List.filter_cons, if_neg (by simp [hne])]
      exact ht

/-- With distinct keys, two members sharing a key are the same row. -/
theorem eq_of_mem_same_pid {l : List PassengerRec} {p q : PassengerRec}
    (hnd : (pids l).Nodup) (hp : p ∈ l) (hq : q ∈ l)
    (hid : p.passenger_id = q.passenger_id) : p = q := by
  have h1 := lookupP_of_mem hnd hp
  have h2 := lookupP_of_mem hnd hq
  rw [hid] at h1
  exact Option.some.inj (h1.symm.trans h2)

/-- An update keyed on an id absent from (the relevant part of) the list is
the identity. -/
theorem updP_id_of_not_mem {l : List PassengerRec} {pid : Nat}
    (f : PassengerRec → PassengerRec) (h : ∀ q ∈ l, q.passenger_id ≠ pid) :
    updP l pid f = l := by
  induction l with
  | nil => rfl
  | cons a l ih =>
    have ha := h a (List.mem_cons_self a l)
    have ht := ih (fun q hq => h q (List.mem_cons_of_mem a hq))
    unfold updP at ht ⊢
    rw [List.map_cons, if_neg (by simp [ha]), ht]

theorem updT_id_of_not_mem {l : List TrainRec} {tid : Nat}
    (f : TrainRec → TrainRec) (h : ∀ t ∈ l, t.train_id ≠ tid) :
    updT l tid f = l := by
  induction l with
  | nil => rfl
  | cons a l ih =>
    have ha := h a (List.mem_cons_self a l)
    have ht := ih (fun t htm => h t (List.mem_cons_of_mem a htm))
    unfold updT at ht ⊢
    rw [List.map_cons, if_neg (by simp [ha]), ht]

/-- Effect of one keyed update on a `countP`, in `Int` to stay
subtraction-free: the count moves by the difference at the looked-up row. -/
theorem countP_updP_int (l : List PassengerRec) (pid : Nat)
    (f : PassengerRec → PassengerRec) (P : PassengerRec → Bool)
    (hnd : (pids l).Nodup) (p : PassengerRec) (hp : lookupP l pid = some p) :
    ((updP l pid f).countP P : Int) =
      (l.countP P : Int) +
        ((if P (f p) then 1 else 0) - (if P p then 1 else 0)) := by
  induction l with
  | nil => simp [lookupP] at hp
  | cons a l ih =>
    by_cases ha : a.passenger_id = pid
    · have hpa : p = a := by
        have hh : lookupP (a :: l) pid = some a := by
          unfold lookupP
          rw [List.filter_cons, if_pos (by simp [ha])]
          rfl
        rw [hh] at hp
        exact (Option.some.inj hp).symm
      subst hpa
      have hrest : updP l pid f = l := by
        apply updP_id_of_not_mem
        intro q hq he
        exact (List.nodup_cons.mp hnd).1
          (by simpa [ha, he] using List.mem_map_of_mem (·.passenger_id) hq)
      unfold updP
      rw [List.map_cons, if_pos (by simp [ha])]
      rw [show List.map (fun q => if q.passenger_id == pid then f q else q) l
            = updP l pid f from rfl, hrest]
      rw [List.countP_cons, List.countP_cons]
      by_cases h1 : P (f p) <;> by_cases h2 : P p <;>
        simp only [h1, h2, if_true, if_false] <;> push_cast <;> omega
    · have hp' : lookupP l pid = some p := by
        unfold lookupP at hp ⊢
        rw [List.filter_cons, if_neg (by simp [ha])] at hp
        exact hp
      have hrec := ih (List.nodup_cons.mp hnd).2 hp'
      unfold updP
      rw [List.map_cons, if_neg (by simp [ha])]
      rw [show List.map (fun q => if q.passenger_id == pid then f q else q) l
            = updP l pid f from rfl]
      rw [List.countP_cons, List.countP_cons]
      by_cases h1 : P a <;>
        simp only [h1, if_true, if_false] <;> push_cast <;> omega

/-! ## Field stability of the row transformations -/

@[simp] theorem boardFields_pid (tid : Nat) (now : Int) (p : PassengerRec) :
    (boardFields tid now p).passenger_id = p.passenger_id := rfl

@[simp] theorem deboardFields_pid (sid : Option Nat) (now : Int)
    (p : PassengerRec) :
    (deboardFields sid now p).passenger_id = p.passenger_id := rfl

@[simp] theorem departFields_id (now : Int) (w : List Waypoint) (t : TrainRec) :
    (departFields now w t).train_id = t.train_id := by
  cases w <;> rfl

@[simp] theorem departFields_count (now : Int) (w : List Waypoint)
    (t : TrainRec) :
    (departFields now w t).current_passenger_count = t.current_passenger_count := by
  cases w <;> rfl

@[simp] theorem departFields_cap (now : Int) (w : List Waypoint) (t : TrainRec) :
    (departFields now w t).passenger_capacity = t.passenger_capacity := by
  cases w <;> rfl

@[simp] theorem departFields_idx (now : Int) (w : List Waypoint) (t : TrainRec) :
    (departFields now w t).current_waypoint_index ≤ t.current_waypoint_index + 1 := by
  cases w <;> simp [departFields]

@[simp] theorem betweenFields_id (t : TrainRec) :
    (betweenFields t).train_id = t.train_id := rfl

@[simp] theorem betweenFields_count (t : TrainRec) :
    (betweenFields t).current_passenger_count = t.current_passenger_count := rfl

@[simp] theorem betweenFields_cap (t : TrainRec) :
    (betweenFields t).passenger_capacity = t.passenger_capacity := rfl

@[simp] theorem betweenFields_idx (t : TrainRec) :
    (betweenFields t).current_waypoint_index = t.current_waypoint_index := rfl

@[simp] theorem arriveFields_id (sid : Option Nat) (now pa : Int)
    (t : TrainRec) : (arriveFields sid now pa t).train_id = t.train_id := by
  cases h : t.actual_departure <;> simp [arriveFields, h]

@[simp] theorem arriveFields_count (sid : Option Nat) (now pa : Int)
    (t : TrainRec) :
    (arriveFields sid now pa t).current_passenger_count
      = t.current_passenger_count := by
  cases h : t.actual_departure <;> simp [arriveFields, h]

@[simp] theorem arriveFields_cap (sid : Option Nat) (now pa : Int)
    (t : TrainRec) :
    (arriveFields sid now pa t).passenger_capacity = t.passenger_capacity := by
  cases h : t.actual_departure <;> simp [arriveFields, h]

@[simp] theorem arriveFields_idx (sid : Option Nat) (now pa : Int)
    (t : TrainRec) :
    (arriveFields sid now pa t).current_waypoint_index
      = t.current_waypoint_index := by
  cases h : t.actual_departure <;> simp [arriveFields, h]

@[simp] theorem completeFields_id (now : Int) (t : TrainRec) :
    (completeFields now t).train_id = t.train_id := rfl

@[simp] theorem completeFields_count (now : Int) (t : TrainRec) :
    (completeFields now t).current_passenger_count = t.current_passenger_count := rfl

@[simp] theorem completeFields_cap (now : Int) (t : TrainRec) :
    (completeFields now t).passenger_capacity = t.passenger_capacity := rfl

@[simp] theorem completeFields_idx (now : Int) (t : TrainRec) :
    (completeFields now t).current_waypoint_index = t.current_waypoint_index := rfl

@[simp] theorem advanceFields_id (t : TrainRec) :
    (advanceFields t).train_id = t.train_id := rfl

@[simp] theorem advanceFields_count (t : TrainRec) :
    (advanceFields t).current_passenger_count = t.current_passenger_count := rfl

@[simp] theorem advanceFields_cap (t : TrainRec) :
    (advanceFields t).passenger_capacity = t.passenger_capacity := rfl

@[simp] theorem advanceFields_idx (t : TrainRec) :
    (advanceFields t).current_waypoint_index = t.current_waypoint_index + 1 := rfl

@[simp] theorem decCount_id (t : TrainRec) :
    (decCount t).train_id = t.train_id := rfl

@[simp] theorem decCount_idx (t : TrainRec) :
    (decCount t).current_waypoint_index = t.current_waypoint_index := rfl

@[simp] theorem decCount_cap (t : TrainRec) :
    (decCount t).passenger_capacity = t.passenger_capacity := rfl

@[simp] theorem incCount_id (t : TrainRec) :
    (incCount t).train_id = t.train_id := rfl

@[simp] theorem incCount_idx (t : TrainRec) :
    (incCount t).current_waypoint_index = t.current_waypoint_index := rfl

@[simp] theorem incCount_cap (t : TrainRec) :
    (incCount t).passenger_capacity = t.passenger_capacity := rfl

theorem pids_updP (l : List PassengerRec) (pid : Nat)
    (f : PassengerRec → PassengerRec)
    (hf : ∀ p, (f p).passenger_id = p.passenger_id) :
    pids (updP l pid f) = pids l :=
  pids_map l _ (fun p => by by_cases h : (p.passenger_id == pid) <;> simp [h, hf])

theorem tids_updT (l : List TrainRec) (tid : Nat)
    (f : TrainRec → TrainRec) (hf : ∀ t, (f t).train_id = t.train_id) :
    tids (updT l tid f) = tids l :=
  tids_map l _ (fun t => by by_cases h : (t.train_id == tid) <;> simp [h, hf])

/-! ## Shape lemmas for board/deboard and the passenger exchange -/

theorem board_passenger_current_trains (s : Session) (pid tid : Nat)
    (now : Int) :
    (board_passenger s pid tid now).current.trains = s.current.trains := by
  unfold board_passenger
  cases h : get_passenger s.current pid with
  | none => rfl
  | some p =>
    by_cases hw : p.status = PStatus.waiting <;>
      simp [hw, commitS, DB.withPassengers]

theorem deboard_passenger_current_trains (s : Session) (pid : Nat)
    (sid : Option Nat) (now : Int) :
    (deboard_passenger s pid sid now).current.trains = s.current.trains := by
  unfold deboard_passenger
  cases h : get_passenger s.current pid with
  | none => rfl
  | some p =>
    by_cases hw : p.status = PStatus.boarded <;>
      simp [hw, commitS, DB.withPassengers]

theorem board_passenger_committed (s : Session) (pid tid : Nat) (now : Int) :
    (board_passenger s pid tid now).committed = s.committed ∨
      (board_passenger s pid tid now).committed
        = (board_passenger s pid tid now).current := by
  unfold board_passenger
  cases h : get_passenger s.current pid with
  | none => exact Or.inl rfl
  | some p =>
    by_cases hw : p.status = PStatus.waiting <;> simp [hw, commitS]

theorem deboard_passenger_committed (s : Session) (pid : Nat)
    (sid : Option Nat) (now : Int) :
    (deboard_passenger s pid sid now).committed = s.committed ∨
      (deboard_passenger s pid sid now).committed
        = (deboard_passenger s pid sid now).current := by
  unfold deboard_passenger
  cases h : get_passenger s.current pid with
  | none => exact Or.inl rfl
  | some p =>
    by_cases hw : p.status = PStatus.boarded <;> simp [hw, commitS]

theorem board_passenger_mics (s : Session) (pid tid : Nat) (now : Int) :
    (board_passenger s pid tid now).current.sim = s.current.sim ∧
    (board_passenger s pid tid now).current.routes = s.current.routes ∧
    (board_passenger s pid tid now).current.stations = s.current.stations ∧
    pids (board_passenger s pid tid now).current.passengers
      = pids s.current.passengers := by
  unfold board_passenger
  cases h : get_passenger s.current pid with
  | none => exact ⟨rfl, rfl, rfl, rfl⟩
  | some p =>
    by_cases hw : p.status = PStatus.waiting <;>
      simp [hw, commitS, DB.withPassengers]
    exact pids_updP _ _ _ (fun q => rfl)

theorem deboard_passenger_mics (s : Session) (pid : Nat) (sid : Option Nat)
    (now : Int) :
    (deboard_passenger s pid sid now).current.sim = s.current.sim ∧
    (deboard_passenger s pid sid now).current.routes = s.current.routes ∧
    (deboard_passenger s pid sid now).current.stations = s.current.stations ∧
    pids (deboard_passenger s pid sid now).current.passengers
      = pids s.current.passengers := by
  unfold deboard_passenger
  cases h : get_passenger s.current pid with
  | none => exact ⟨rfl, rfl, rfl, rfl⟩
  | some p =>
    by_cases hw : p.status = PStatus.boarded <;>
      simp [hw, commitS, DB.withPassengers]
    exact pids_updP _ _ _ (fun q => rfl)

/-- Collateral of the passenger exchange on everything except the exchanged
rows: the clock, the topology and the passenger keys are untouched in the
in-transaction view. -/
theorem exchange_mics (s : Session) (tid : Nat) (sid : Option Nat)
    (now : Int) :
    (handle_passenger_exchange s tid sid now).current.sim = s.current.sim ∧
    (handle_passenger_exchange s tid sid now).current.routes = s.current.routes ∧
    (handle_passenger_exchange s tid sid now).current.stations
      = s.current.stations ∧
    pids (handle_passenger_exchange s tid sid now).current.passengers
      = pids s.current.passengers := by
  have step1 : ∀ (L : List PassengerRec) (b : Session),
      (b.current.sim = s.current.sim ∧ b.current.routes = s.current.routes ∧
        b.current.stations = s.current.stations ∧
        pids b.current.passengers = pids s.current.passengers) →
      ((deboardLoop tid sid now L b).current.sim = s.current.sim ∧
        (deboardLoop tid sid now L b).current.routes = s.current.routes ∧
        (deboardLoop tid sid now L b).current.stations = s.current.stations ∧
        pids (deboardLoop tid sid now L b).current.passengers
          = pids s.current.passengers) := by
    intro L b hb
    unfold deboardLoop
    refine foldl_pres (fun b => b.current.sim = s.current.sim ∧
      b.current.routes = s.current.routes ∧
      b.current.stations = s.current.stations ∧
      pids b.current.passengers = pids s.current.passengers) _ ?_ L b hb
    intro b' p hb'
    have h := deboard_passenger_mics b' p.passenger_id sid now
    simp only [mutTrain, DB.withTrains]
    exact ⟨h.1.trans hb'.1, h.2.1.trans hb'.2.1, h.2.2.1.trans hb'.2.2.1,
      h.2.2.2.trans hb'.2.2.2⟩
  have step2 : ∀ (L : List PassengerRec) (b : Session),
      (b.current.sim = s.current.sim ∧ b.current.routes = s.current.routes ∧
        b.current.stations = s.current.stations ∧
        pids b.current.passengers = pids s.current.passengers) →
      ((boardLoop tid now L b).current.sim = s.current.sim ∧
        (boardLoop tid now L b).current.routes = s.current.routes ∧
        (boardLoop tid now L b).current.stations = s.current.stations ∧
        pids (boardLoop tid now L b).current.passengers
          = pids s.current.passengers) := by
    intro L b hb
    unfold boardLoop
    refine foldl_pres (fun b => b.current.sim = s.current.sim ∧
      b.current.routes = s.current.routes ∧
      b.current.stations = s.current.stations ∧
      pids b.current.passengers = pids s.current.passengers) _ ?_ L b hb
    intro b' p hb'
    have h := board_passenger_mics b' p.passenger_id tid now
    simp only [mutTrain, DB.withTrains]
    exact ⟨h.1.trans hb'.1, h.2.1.trans hb'.2.1, h.2.2.1.trans hb'.2.2.1,
      h.2.2.2.trans hb'.2.2.2⟩
  unfold handle_passenger_exchange
  have h1 := step1 (get_passengers_getting_off_at_station s.current tid sid) s
    ⟨rfl, rfl, rfl, rfl⟩
  cases hl : lookupT (deboardLoop tid sid now
      (get_passengers_getting_off_at_station s.current tid sid) s).current.trains tid with
  | none => simpa [hl] using h1
  | some train =>
    simp only [hl]
    exact step2 _ _ h1

theorem EqOutside_refl (tid : Nat) (db : DB) : EqOutside tid db db := by
  refine ⟨rfl, ?_⟩
  intro i a b ha hb
  rw [ha] at hb
  cases hb
  exact ⟨rfl, fun _ => rfl, rfl⟩

theorem EqOutside.toStepB {tid : Nat} {pre db : DB}
    (h : EqOutside tid pre db) : StepB tid pre db := by
  refine ⟨h.1, ?_⟩
  intro i a b ha hb
  obtain ⟨h1, h2, h3⟩ := h.2 i a b ha hb
  exact ⟨h1, h2, by omega⟩

theorem EqOutside_of_trains_eq {tid : Nat} {pre db db' : DB}
    (h : EqOutside tid pre db) (he : db'.trains = db.trains) :
    EqOutside tid pre db' := by
  refine ⟨he ▸ h.1, ?_⟩
  intro i a b ha hb
  exact h.2 i a b ha (he ▸ hb)

theorem EqOutside.trans {tid : Nat} {a b c : DB}
    (hab : EqOutside tid a b) (hbc : EqOutside tid b c) :
    EqOutside tid a c := by
  refine ⟨hbc.1.trans hab.1, ?_⟩
  intro i av cv hav hcv
  have hib : i < b.trains.length := by
    have hia : i < a.trains.length := by
      rcases List.getElem?_eq_some.mp hav with ⟨h, _⟩
      exact h
    have hl := hab.1
    omega
  have hbv : b.trains[i]? = some b.trains[i] := List.getElem?_eq_getElem hib
  obtain ⟨h1, h2, h3⟩ := hab.2 i av _ hav hbv
  obtain ⟨h4, h5, h6⟩ := hbc.2 i _ cv hbv hcv
  refine ⟨h4.trans h1, ?_, h6.trans h3⟩
  intro hne
  rw [h5 (h1 ▸ hne), h2 hne]

theorem EqOutside.trans_stepB {tid : Nat} {a b c : DB}
    (hab : EqOutside tid a b) (hbc : StepB tid b c) : StepB tid a c := by
  refine ⟨hbc.1.trans hab.1, ?_⟩
  intro i av cv hav hcv
  have hib : i < b.trains.length := by
    have hia : i < a.trains.length := by
      rcases List.getElem?_eq_some.mp hav with ⟨h, _⟩
      exact h
    have hl := hab.1
    omega
  have hbv : b.trains[i]? = some b.trains[i] := List.getElem?_eq_getElem hib
  obtain ⟨h1, h2, h3⟩ := hab.2 i av _ hav hbv
  obtain ⟨h4, h5, h6⟩ := hbc.2 i _ cv hbv hcv
  refine ⟨h4.trans h1, ?_, by omega⟩
  intro hne
  rw [h5 (h1 ▸ hne), h2 hne]

theorem EqOutside_updT (tid : Nat) (db : DB) (f : TrainRec → TrainRec)
    (hid : ∀ t, (f t).train_id = t.train_id)
    (hidx : ∀ t, (f t).current_waypoint_index = t.current_waypoint_index) :
    EqOutside tid db (db.withTrains (updT db.trains tid f)) := by
  refine ⟨by simp [DB.withTrains, updT], ?_⟩
  intro i a b ha hb
  simp only [DB.withTrains, updT, List.getElem?_map, ha, Option.map_some'] at hb
  by_cases h : a.train_id = tid
  · rw [if_pos (by simp [h])] at hb
    cases hb
    exact ⟨hid a, fun hc => absurd h hc, hidx a⟩
  · rw [if_neg (by simp [h])] at hb
    cases hb
    exact ⟨rfl, fun _ => rfl, rfl⟩

theorem StepB_updT (tid : Nat) (db : DB) (f : TrainRec → TrainRec)
    (hid : ∀ t, (f t).train_id = t.train_id)
    (hidx : ∀ t, (f t).current_waypoint_index ≤ t.current_waypoint_index + 1) :
    StepB tid db (db.withTrains (updT db.trains tid f)) := by
  refine ⟨by simp [DB.withTrains, updT], ?_⟩
  intro i a b ha hb
  simp only [DB.withTrains, updT, List.getElem?_map, ha, Option.map_some'] at hb
  by_cases h : a.train_id = tid
  · rw [if_pos (by simp [h])] at hb
    cases hb
    exact ⟨hid a, fun hc => absurd h hc, hidx a⟩
  · rw [if_neg (by simp [h])] at hb
    cases hb
    exact ⟨rfl, fun _ => rfl, by omega⟩

/-- The passenger exchange moves only the exchanged train's (count) row in
the in-transaction view, and the durable snapshot it may leave behind is
one of its own intermediate views. -/
theorem exchange_EqOutside (s : Session) (tid : Nat) (sid : Option Nat)
    (now : Int) :
    EqOutside tid s.current (handle_passenger_exchange s tid sid now).current ∧
    ((handle_passenger_exchange s tid sid now).committed = s.committed ∨
      EqOutside tid s.current
        (handle_passenger_exchange s tid sid now).committed) := by
  have hdec : ∀ (b' : Session) (p : PassengerRec),
      (EqOutside tid s.current b'.current ∧
        (b'.committed = s.committed ∨ EqOutside tid s.current b'.committed)) →
      (EqOutside tid s.current
          (mutTrain (deboard_passenger b' p.passenger_id sid now) tid decCount).current ∧
        ((mutTrain (deboard_passenger b' p.passenger_id sid now) tid decCount).committed
            = s.committed ∨
          EqOutside tid s.current
            (mutTrain (deboard_passenger b' p.passenger_id sid now) tid decCount).committed)) := by
    intro b' p hb
    set b1 := deboard_passenger b' p.passenger_id sid now with hb1
    have htr : b1.current.trains = b'.current.trains :=
      deboard_passenger_current_trains b' p.passenger_id sid now
    have hcur1 : EqOutside tid s.current b1.current := by
      refine ⟨htr ▸ hb.1.1, ?_⟩
      intro i a b ha hbx
      exact hb.1.2 i a b ha (htr ▸ hbx)
    constructor
    · exact hcur1.trans (EqOutside_updT tid b1.current decCount
        (fun t => rfl) (fun t => rfl))
    · have hm : (mutTrain b1 tid decCount).committed = b1.committed := rfl
      rcases deboard_passenger_committed b' p.passenger_id sid now with hc | hc
      · rcases hb.2 with hc' | hc'
        · exact Or.inl (hm.trans (hc.trans hc'))
        · exact Or.inr (by rw [hm, hc]; exact hc')
      · exact Or.inr (by rw [hm, hc]; exact hcur1)
  have hinc : ∀ (b' : Session) (p : PassengerRec),
      (EqOutside tid s.current b'.current ∧
        (b'.committed = s.committed ∨ EqOutside tid s.current b'.committed)) →
      (EqOutside tid s.current
          (mutTrain (board_passenger b' p.passenger_id tid now) tid incCount).current ∧
        ((mutTrain (board_passenger b' p.passenger_id tid now) tid incCount).committed
            = s.committed ∨
          EqOutside tid s.current
            (mutTrain (board_passenger b' p.passenger_id tid now) tid incCount).committed)) := by
    intro b' p hb
    set b1 := board_passenger b' p.passenger_id tid now with hb1
    have htr : b1.current.trains = b'.current.trains :=
      board_passenger_current_trains b' p.passenger_id tid now
    have hcur1 : EqOutside tid s.current b1.current := by
      refine ⟨htr ▸ hb.1.1, ?_⟩
      intro i a b ha hbx
      exact hb.1.2 i a b ha (htr ▸ hbx)
    constructor
    · exact hcur1.trans (EqOutside_updT tid b1.current incCount
        (fun t => rfl) (fun t => rfl))
    · have hm : (mutTrain b1 tid incCount).committed = b1.committed := rfl
      rcases board_passenger_committed b' p.passenger_id tid now with hc | hc
      · rcases hb.2 with hc' | hc'
        · exact Or.inl (hm.trans (hc.trans hc'))
        · exact Or.inr (by rw [hm, hc]; exact hc')
      · exact Or.inr (by rw [hm, hc]; exact hcur1)
  unfold handle_passenger_exchange
  have h1 : EqOutside tid s.current (deboardLoop tid sid now
        (get_passengers_getting_off_at_station s.current tid sid) s).current ∧
      ((deboardLoop tid sid now
          (get_passengers_getting_off_at_station s.current tid sid) s).committed
            = s.committed ∨
        EqOutside tid s.current (deboardLoop tid sid now
          (get_passengers_getting_off_at_station s.current tid sid) s).committed) := by
    unfold deboardLoop
    exact foldl_pres (fun b => EqOutside tid s.current b.current ∧
        (b.committed = s.committed ∨ EqOutside tid s.current b.committed))
      (fun acc p => mutTrain (deboard_passenger acc p.passenger_id sid now) tid decCount)
      (fun b p hb => hdec b p hb)
      (get_passengers_getting_off_at_station s.current tid sid) s
      ⟨EqOutside_refl tid s.current, Or.inl rfl⟩
  cases hl : lookupT (deboardLoop tid sid now
      (get_passengers_getting_off_at_station s.current tid sid) s).current.trains tid with
  | none => simpa [hl] using h1
  | some train =>
    simp only [hl]
    unfold boardLoop
    exact foldl_pres (fun b => EqOutside tid s.current b.current ∧
        (b.committed = s.committed ∨ EqOutside tid s.current b.committed))
      (fun acc p => mutTrain (board_passenger acc p.passenger_id tid now) tid incCount)
      (fun b p hb => hinc b p hb) _ _ h1

/-! ## Shape of one `_update_train_state` call -/

theorem UTSOk_self (s : Session) (tid : Nat) : UTSOk s s tid :=
  ⟨(EqOutside_refl tid s.current).toStepB, Or.inl rfl, rfl, rfl, rfl, rfl⟩

theorem UTSOk_mut (s : Session) (tid : Nat) (f : TrainRec → TrainRec)
    (hid : ∀ t, (f t).train_id = t.train_id)
    (hidx : ∀ t, (f t).current_waypoint_index ≤ t.current_waypoint_index + 1) :
    UTSOk s (mutTrain s tid f) tid :=
  ⟨StepB_updT tid s.current f hid hidx, Or.inl rfl, rfl, rfl, rfl, rfl⟩

theorem UTSOk_arrival (s : Session) (tid : Nat) (sid : Option Nat)
    (now pa : Int) (g : TrainRec → TrainRec)
    (hid : ∀ t, (g t).train_id = t.train_id)
    (hidx : ∀ t, (g t).current_waypoint_index ≤ t.current_waypoint_index + 1) :
    UTSOk s (mutTrain (handle_passenger_exchange
      (mutTrain s tid (arriveFields sid now pa)) tid sid now) tid g) tid := by
  set s1 := mutTrain s tid (arriveFields sid now pa) with hs1
  set s2 := handle_passenger_exchange s1 tid sid now with hs2
  have h01 : EqOutside tid s.current s1.current :=
    EqOutside_updT tid s.current (arriveFields sid now pa)
      (fun t => arriveFields_id sid now pa t) (fun t => arriveFields_idx sid now pa t)
  have h12 := exchange_EqOutside s1 tid sid now
  have h02 : EqOutside tid s.current s2.current := h01.trans h12.1
  have h23 : StepB tid s2.current (mutTrain s2 tid g).current :=
    StepB_updT tid s2.current g hid hidx
  have hm1 := exchange_mics s1 tid sid now
  refine ⟨h02.trans_stepB h23, ?_, ?_, ?_, ?_, ?_⟩
  · have hcm : (mutTrain s2 tid g).committed = s2.committed := rfl
    rcases h12.2 with hc | hc
    · exact Or.inl (hcm.trans hc)
    · exact Or.inr (by rw [hcm]; exact (h01.trans hc).toStepB)
  · exact hm1.1
  · exact hm1.2.1
  · exact hm1.2.2.1
  · exact hm1.2.2.2

/-- Case analysis of `_update_train_state`: it either raises the
`fromisoformat` `ValueError` or returns a session of the shape `UTSOk`. -/
theorem uts_cases (s : Session) (tid : Nat) (now : Int) :
    update_train_state s tid now = .error .invalidTimestamp ∨
    ∃ s', update_train_state s tid now = .ok s' ∧ UTSOk s s' tid := by
  unfold update_train_state
  cases hT : lookupT s.current.trains tid with
  | none => exact Or.inr ⟨s, rfl, UTSOk_self s tid⟩
  | some train =>
  dsimp only
  by_cases hdone : train.status = TrainStatus.completed ∨ train.status = TrainStatus.cancelled
  · rw [if_pos hdone]
    exact Or.inr ⟨s, rfl, UTSOk_self s tid⟩
  · rw [if_neg hdone]
    cases hR : lookupR s.current.routes train.route_id with
    | none => exact Or.inr ⟨s, rfl, UTSOk_self s tid⟩
    | some route =>
    dsimp only
    by_cases hW : route.waypoints.isEmpty
    · rw [if_pos hW]
      exact Or.inr ⟨s, rfl, UTSOk_self s tid⟩
    · rw [if_neg hW]
      by_cases hsch : train.status = TrainStatus.scheduled ∧ train.scheduled_departure.isSome
      · rw [if_pos hsch]
        cases hdep : train.scheduled_departure with
        | none => exact Or.inr ⟨s, rfl, UTSOk_self s tid⟩
        | some dep =>
          dsimp only
          by_cases hle : dep ≤ now
          · rw [if_pos hle]
            exact Or.inr ⟨_, rfl, UTSOk_mut s tid (departFields now route.waypoints)
              (fun t => departFields_id now route.waypoints t)
              (fun t => departFields_idx now route.waypoints t)⟩
          · rw [if_neg hle]
            exact Or.inr ⟨s, rfl, UTSOk_self s tid⟩
      · rw [if_neg hsch]
        by_cases hrun : train.status = TrainStatus.running ∨ train.status = TrainStatus.delayed
        · rw [if_pos hrun]
          by_cases hidx : train.current_waypoint_index < route.waypoints.length
          · rw [dif_pos hidx]
            cases hpa : (route.waypoints.get ⟨train.current_waypoint_index, hidx⟩).planned_arrival_time with
            | none =>
              exact Or.inr ⟨_, rfl, UTSOk_mut s tid betweenFields
                (fun t => rfl) (fun t => by simp)⟩
            | some parsed =>
              dsimp only
              cases parsed with
              | none => exact Or.inl rfl
              | some pa =>
                dsimp only
                by_cases hle : pa ≤ now
                · rw [if_pos hle]
                  by_cases hlast : train.current_waypoint_index = route.waypoints.length - 1
                  · rw [if_pos hlast]
                    exact Or.inr ⟨_, rfl, UTSOk_arrival s tid _ now pa
                      (completeFields now) (fun t => rfl) (fun t => by simp)⟩
                  · rw [if_neg hlast]
                    exact Or.inr ⟨_, rfl, UTSOk_arrival s tid _ now pa
                      advanceFields (fun t => rfl) (fun t => by simp)⟩
                · rw [if_neg hle]
                  exact Or.inr ⟨_, rfl, UTSOk_mut s tid betweenFields
                    (fun t => rfl) (fun t => by simp)⟩
          · rw [dif_neg hidx]
            exact Or.inr ⟨s, rfl, UTSOk_self s tid⟩
        · rw [if_neg hrun]
          exact Or.inr ⟨s, rfl, UTSOk_self s tid⟩

/-! ## The update loop -/

/-- The only error the update loop ever raises is the `fromisoformat`
`ValueError` on a malformed waypoint timestamp. -/
theorem runUpdates_error_char :
    ∀ (rem : List Nat) (s : Session) (now : Int) (e : SimError)
      (serr : Session), runUpdates rem s now = .error (e, serr) →
      e = .invalidTimestamp := by
  intro rem
  induction rem with
  | nil =>
    intro s now e serr h
    simp [runUpdates] at h
  | cons tid rest ih =>
    intro s now e serr h
    rcases uts_cases s tid now with herr | ⟨s'', hok, _⟩
    · simp only [runUpdates, herr, Except.error.injEq, Prod.mk.injEq] at h
      exact h.1.symm
    · simp only [runUpdates, hok] at h
      exact ih s'' now e serr h

/-- A successful update loop leaves the clock record untouched. -/
theorem runUpdates_ok_sim :
    ∀ (rem : List Nat) (s : Session) (now : Int) (s' : Session),
      runUpdates rem s now = .ok s' → s'.current.sim = s.current.sim := by
  intro rem
  induction rem with
  | nil =>
    intro s now s' h
    simp only [runUpdates] at h
    cases h
    rfl
  | cons tid rest ih =>
    intro s now s' h
    rcases uts_cases s tid now with herr | ⟨s'', hok, hUTS⟩
    · simp [runUpdates, herr] at h
    · simp only [runUpdates, hok] at h
      exact (ih s'' now s' h).trans hUTS.2.2.1

theorem LoopB_refl (A : List Nat) (db : DB) : LoopB A db db := by
  refine ⟨rfl, ?_⟩
  intro i a b ha hb
  rw [ha] at hb
  cases hb
  exact ⟨rfl, fun _ => rfl, by omega⟩

theorem LoopB_of_trains_eq {A : List Nat} {pre db : DB}
    (h : db.trains = pre.trains) : LoopB A pre db := by
  refine ⟨by rw [h], ?_⟩
  intro i a b ha hb
  rw [h, ha] at hb
  cases hb
  exact ⟨rfl, fun _ => rfl, by omega⟩

theorem FreshOn_of_trains_eq {rem : List Nat} {pre db : DB}
    (h : db.trains = pre.trains) : FreshOn rem pre db := by
  intro i a b ha hb _
  rw [h, ha] at hb
  cases hb
  rfl

/-- One processed train of the loop: the loop relation and the freshness of
the still-unprocessed suffix both survive one `_update_train_state`. -/
theorem loop_transfer {A : List Nat} {pre cur cur' : DB} {tid : Nat}
    {rest : List Nat}
    (hA : tid ∈ A) (hnotin : tid ∉ rest)
    (hL : LoopB A pre cur) (hF : FreshOn (tid :: rest) pre cur)
    (hS : StepB tid cur cur') :
    LoopB A pre cur' ∧ FreshOn rest pre cur' := by
  have hlen' : cur'.trains.length = pre.trains.length := hS.1.trans hL.1
  have key : ∀ (i : Nat) (a b : TrainRec), pre.trains[i]? = some a →
      cur'.trains[i]? = some b →
      b.train_id = a.train_id ∧ (a.train_id ∉ A → b = a) ∧
      b.current_waypoint_index ≤ a.current_waypoint_index + 1 ∧
      (a.train_id ∈ rest → b = a) := by
    intro i a b ha hb
    have hia : i < pre.trains.length := (List.getElem?_eq_some.mp ha).1
    have hic : i < cur.trains.length := by
      have := hL.1
      omega
    have hc : cur.trains[i]? = some cur.trains[i] := List.getElem?_eq_getElem hic
    obtain ⟨hid1, hout1, hidx1⟩ := hL.2 i a _ ha hc
    obtain ⟨hid2, hout2, hidx2⟩ := hS.2 i _ b hc hb
    by_cases hat : a.train_id = tid
    · have hca : cur.trains[i] = a :=
        hF i a _ ha hc (by rw [hat]; exact List.mem_cons_self tid rest)
      rw [hca] at hidx2
      refine ⟨hid2.trans hid1, ?_, by omega, ?_⟩
      · intro hnotA
        exact absurd (hat ▸ hA) hnotA
      · intro hmem
        exact absurd (hat ▸ hmem) hnotin
    · have hbc : b = cur.trains[i] := hout2 (by rw [hid1]; exact hat)
      refine ⟨hid2.trans hid1, fun hnA => hbc.trans (hout1 hnA), ?_, ?_⟩
      · rw [hbc]
        omega
      · intro hmem
        exact hbc.trans (hF i a _ ha hc (List.mem_cons_of_mem tid hmem))
  refine ⟨⟨hlen', ?_⟩, ?_⟩
  · intro i a b ha hb
    obtain ⟨h1, h2, h3, _⟩ := key i a b ha hb
    exact ⟨h1, h2, h3⟩
  · intro i a b ha hb hm
    exact (key i a b ha hb).2.2.2 hm

/-- The master invariant of `step_simulation`'s update loop: starting from
the loop-entry snapshot `pre`, over any suffix `rem` of the distinct active
train ids, both session views keep the loop relation, and on success the
clock, topology and passenger keys are untouched. -/
theorem runUpdates_master (A : List Nat) (pre : DB) :
    ∀ (rem : List Nat) (s : Session) (now : Int),
    rem.Nodup → (∀ x ∈ rem, x ∈ A) →
    LoopB A pre s.current → LoopB A pre s.committed →
    FreshOn rem pre s.current →
    s.current.sim = pre.sim → s.current.routes = pre.routes →
    s.current.stations = pre.stations →
    pids s.current.passengers = pids pre.passengers →
    (∀ s', runUpdates rem s now = .ok s' →
      LoopB A pre s'.current ∧ LoopB A pre s'.committed ∧
      s'.current.sim = pre.sim ∧ s'.current.routes = pre.routes ∧
      s'.current.stations = pre.stations ∧
      pids s'.current.passengers = pids pre.passengers) ∧
    (∀ e serr, runUpdates rem s now = .error (e, serr) →
      LoopB A pre serr.current ∧ LoopB A pre serr.committed) := by
  intro rem
  induction rem with
  | nil =>
    intro s now _ _ hLc hLm _ hsim hrts hst hp
    constructor
    · intro s' h
      simp only [runUpdates] at h
      cases h
      exact ⟨hLc, hLm, hsim, hrts, hst, hp⟩
    · intro e serr h
      simp [runUpdates] at h
  | cons tid rest ih =>
    intro s now hnd hsub hLc hLm hF hsim hrts hst hp
    rcases uts_cases s tid now with herr | ⟨s'', hok, hUTS⟩
    · constructor
      · intro s' h
        simp [runUpdates, herr] at h
      · intro e serr h
        simp only [runUpdates, herr, Except.error.injEq, Prod.mk.injEq] at h
        rw [← h.2]
        exact ⟨hLc, hLm⟩
    · obtain ⟨hS, hcom, hsim2, hrts2, hst2, hp2⟩ := hUTS
      have hA : tid ∈ A := hsub tid (List.mem_cons_self tid rest)
      have hnotin : tid ∉ rest := (List.nodup_cons.mp hnd).1
      obtain ⟨hLc', hF'⟩ := loop_transfer hA hnotin hLc hF hS
      have hLm' : LoopB A pre s''.committed := by
        rcases hcom with h | h
        · rwa [h]
        · exact (loop_transfer hA hnotin hLc hF h).1
      have hrec := ih s'' now (List.nodup_cons.mp hnd).2
        (fun x hx => hsub x (List.mem_cons_of_mem tid hx))
        hLc' hLm' hF' (hsim2.trans hsim) (hrts2.trans hrts)
        (hst2.trans hst) (hp2.trans hp)
      constructor
      · intro s' h
        simp only [runUpdates, hok] at h
        exact hrec.1 s' h
      · intro e serr h
        simp only [runUpdates, hok] at h
        exact hrec.2 e serr h

theorem eq_of_mem_same_tid {l : List TrainRec} {t u : TrainRec}
    (hnd : (tids l).Nodup) (ht : t ∈ l) (hu : u ∈ l)
    (hid : t.train_id = u.train_id) : t = u := by
  have h1 := lookupT_of_mem hnd ht
  have h2 := lookupT_of_mem hnd hu
  rw [hid] at h1
  exact Option.some.inj (h1.symm.trans h2)

/-- A completed or cancelled train is not selected by the stepper's status
filter. -/
theorem terminal_not_active {l : List TrainRec} {a : TrainRec}
    (hnd : (tids l).Nodup) (ha : a ∈ l)
    (hterm : a.status = TrainStatus.completed ∨ a.status = TrainStatus.cancelled) :
    a.train_id ∉ tids (l.filter isActiveStatus) := by
  intro hmem
  rcases List.mem_map.mp hmem with ⟨t, htf, hte⟩
  have htl : t ∈ l := (List.mem_filter.mp htf).1
  have hact : isActiveStatus t := (List.mem_filter.mp htf).2
  have hta : t = a := eq_of_mem_same_tid hnd htl ha hte
  rcases hterm with h | h <;>
    simp [isActiveStatus, hta, h] at hact

/-- `step_simulation` rewritten at a present clock record. -/
theorem step_unfold (s : Session) (wall m : Int) (st0 : SimStateRec)
    (hsim : s.current.sim = some st0) :
    step_simulation s wall m =
      match runUpdates
          (tids ((stepEntry s wall m st0).current.trains.filter isActiveStatus))
          (stepEntry s wall m st0) (st0.current_simulated_datetime + m) with
      | .error (e, serr) => (.error e, rollbackS serr)
      | .ok s2 =>
        match (commitS s2).current.sim with
        | some simF => (.ok simF, commitS s2)
        | none => (.error .notInit, commitS s2) := by
  unfold step_simulation
  rw [hsim]
  rfl

theorem stepEntry_committed (s : Session) (wall m : Int) (st0 : SimStateRec) :
    (stepEntry s wall m st0).committed = s.committed := rfl

theorem stepEntry_trains (s : Session) (wall m : Int) (st0 : SimStateRec) :
    (stepEntry s wall m st0).current.trains = s.current.trains := rfl

/-- The session-level consequence of the loop master invariant, phrased
against the pre-step store. -/
theorem step_master (s : Session) (wall m : Int) (st0 : SimStateRec)
    (hclean : s.committed = s.current) (hsim : s.current.sim = some st0)
    (hnd : (tids s.current.trains).Nodup) :
    LoopB (tids (s.current.trains.filter isActiveStatus)) s.current
      (step_simulation s wall m).2.current ∧
    (∀ stF, (step_simulation s wall m).1 = Except.ok stF →
      stF = { st0 with
        current_simulated_datetime := st0.current_simulated_datetime + m,
        last_updated := wall }) := by
  rw [step_unfold s wall m st0 hsim]
  have hndA : (tids ((stepEntry s wall m st0).current.trains.filter
      isActiveStatus)).Nodup := by
    have hsub : List.Sublist
        (tids ((stepEntry s wall m st0).current.trains.filter isActiveStatus))
        (tids s.current.trains) := by
      rw [stepEntry_trains]
      exact (List.filter_sublist s.current.trains).map (·.train_id)
    exact List.Nodup.sublist hsub hnd
  have hmain := runUpdates_master
    (tids ((stepEntry s wall m st0).current.trains.filter isActiveStatus))
    (stepEntry s wall m st0).current
    (tids ((stepEntry s wall m st0).current.trains.filter isActiveStatus))
    (stepEntry s wall m st0)
    (st0.current_simulated_datetime + m)
    hndA (fun x hx => hx)
    (LoopB_refl _ _)
    (LoopB_of_trains_eq (by rw [stepEntry_committed, hclean, stepEntry_trains]))
    (FreshOn_of_trains_eq rfl)
    rfl rfl rfl rfl
  cases hrun : runUpdates
      (tids ((stepEntry s wall m st0).current.trains.filter isActiveStatus))
      (stepEntry s wall m st0) (st0.current_simulated_datetime + m) with
  | error pe =>
    obtain ⟨e, serr⟩ := pe
    obtain ⟨hLc, hLm⟩ := hmain.2 e serr hrun
    dsimp only
    exact ⟨hLm, fun stF h => by simp at h⟩
  | ok s2 =>
    obtain ⟨hLc, _, hsim2, _, _, _⟩ := hmain.1 s2 hrun
    dsimp only
    have hsim3 : (commitS s2).current.sim = some { st0 with
        current_simulated_datetime := st0.current_simulated_datetime + m,
        last_updated := wall } := hsim2
    rw [hsim3]
    refine ⟨hLc, ?_⟩
    intro stF h
    injection h with h1
    exact h1.symm

/-! ## Claim C1 -/

/-- C1 (counterexample): in Scenario A — stations S1, S2, route
`[S1@0, S2@1 planned_arrival = T+60]`, Train X with capacity 2 scheduled to
depart at `T` — a single `step(60)` issued at `T` leaves X `running` at S1
with waypoint index 0, not `completed` at S2: the departure branch and the
arrival branch of `_update_train_state` are an `if`/`elif` pair, so the
step that departs a train never also processes an arrival. -/
theorem scenarioA_one_step_not_completed_cex :
    (step_simulation sessionA 999 60).1 = Except.ok ⟨60, 60, false, 999⟩ ∧
    (lookupT (step_simulation sessionA 999 60).2.current.trains 100).map
      (·.status) = some TrainStatus.running ∧
    ¬ ((lookupT (step_simulation sessionA 999 60).2.current.trains 100).map
      (·.status) = some TrainStatus.completed) ∧
    ¬ ((lookupT (step_simulation sessionA 999 60).2.current.trains 100).map
      (·.current_station_id) = some (some 2)) := by
  decide

/-- C1 (amended): one `step(60)` from Scenario A takes X through
`scheduled → running` only: afterwards X is `running` with
`actual_departure = T+60`, `current_station_id = S1` and
`current_waypoint_index = 0`.  X does not arrive at S2 in that step, and —
because waypoint 0 carries no `planned_arrival_time` — a further step still
leaves it `running`/`between_stations` at waypoint 0. -/
theorem scenarioA_one_step_departs_only :
    (step_simulation sessionA 999 60).1 = Except.ok ⟨60, 60, false, 999⟩ ∧
    lookupT (step_simulation sessionA 999 60).2.current.trains 100
      = some trainXdeparted ∧
    lookupT (stepMany sessionA [(999, 60), (999, 60)]).current.trains 100
      = some trainXbetween := by
  decide

/-! ## Claim C2 -/

/-- C2 (counterexample): a step is not atomic.  With train 1 arriving at
station 1 (boarding passenger 7, which commits mid-step) followed by train
2 hitting a malformed waypoint timestamp, the step raises — yet afterwards
passenger 7 is still boarded and the simulated clock still shows the
advanced time: the rollback only reached the last mid-step commit, not the
pre-step state. -/
theorem failed_step_keeps_mid_step_commits_cex :
    (step_simulation sessionBoardThenFail 999 60).1
      = Except.error SimError.invalidTimestamp ∧
    (step_simulation sessionBoardThenFail 999 60).2.current
      ≠ sessionBoardThenFail.current ∧
    (lookupP (step_simulation sessionBoardThenFail 999 60).2.current.passengers 7).map
      (·.status) = some PStatus.boarded ∧
    ((step_simulation sessionBoardThenFail 999 60).2.current.sim).map
      (·.current_simulated_datetime) = some 60 := by
  decide

/-- C2 (amended): after any `step_simulation` call the session holds no
uncommitted changes — on success the step was committed as a whole, on
failure it was rolled back to the most recently committed state.  That
state need not be the pre-step state, because each passenger
board/deboard inside the step commits the transaction mid-step. -/
theorem step_session_fully_committed (s : Session) (wall m : Int) :
    (step_simulation s wall m).2.current
      = (step_simulation s wall m).2.committed := by
  unfold step_simulation
  cases hs : s.current.sim with
  | none => rfl
  | some st0 =>
    dsimp only
    cases hrun : runUpdates
        ((List.filter isActiveStatus s.current.trains).map (·.train_id))
        { s with current := { s.current with sim := some { st0 with
            current_simulated_datetime := st0.current_simulated_datetime + m,
            last_updated := wall } } }
        (st0.current_simulated_datetime + m) with
    | error pe =>
      obtain ⟨e, serr⟩ := pe
      rfl
    | ok s2 =>
      dsimp only
      cases (commitS s2).current.sim <;> rfl

/-! ## Claim C4 -/

/-- C4: for `duration_minutes ≥ 0`, a successful `step` sets
`current_simulated_datetime` to exactly its previous value plus the
duration (hence the clock does not decrease) and stamps `last_updated`
with the wall-clock time; and every train whose status is `completed` or
`cancelled` — the complement of the filter
`status ∈ {scheduled, running, delayed}` — is untouched by the step,
whether the step succeeds or fails. -/
theorem step_advances_clock_skips_terminal
    (s : Session) (wall m : Int) (st0 : SimStateRec)
    (hm : 0 ≤ m) (hclean : s.committed = s.current)
    (hsim : s.current.sim = some st0)
    (hnd : (tids s.current.trains).Nodup) :
    (∀ stF, (step_simulation s wall m).1 = Except.ok stF →
      stF.current_simulated_datetime = st0.current_simulated_datetime + m ∧
      stF.last_updated = wall ∧
      st0.current_simulated_datetime ≤ stF.current_simulated_datetime) ∧
    (step_simulation s wall m).2.current.trains.length
      = s.current.trains.length ∧
    (∀ (i : Nat) (a b : TrainRec), s.current.trains[i]? = some a →
      (step_simulation s wall m).2.current.trains[i]? = some b →
      (a.status = TrainStatus.completed ∨ a.status = TrainStatus.cancelled) →
      b = a) := by
  obtain ⟨hLoop, hclock⟩ := step_master s wall m st0 hclean hsim hnd
  refine ⟨?_, hLoop.1, ?_⟩
  · intro stF h
    have := hclock stF h
    subst this
    refine ⟨rfl, rfl, ?_⟩
    show st0.current_simulated_datetime ≤ st0.current_simulated_datetime + m
    omega
  · intro i a b ha hb hterm
    have hmem : a ∈ s.current.trains := List.getElem?_mem ha
    exact (hLoop.2 i a b ha hb).2.1 (terminal_not_active hnd hmem hterm)

/-- Witness for C4 at Scenario A: `step(60)` succeeds and returns the clock
advanced by exactly 60 minutes. -/
theorem step_advances_clock_skips_terminal_witness :
    (step_simulation sessionA 999 60).1 = Except.ok ⟨60, 60, false, 999⟩ ∧
    ((60 : Int) = 0 + 60 ∧ (999 : Int) = 999 ∧ (0 : Int) ≤ 60) := by
  have h := (step_advances_clock_skips_terminal sessionA 999 60
    ⟨0, 60, false, 0⟩ (by decide) rfl rfl (by decide)).1
  have hok : (step_simulation sessionA 999 60).1
      = Except.ok ⟨60, 60, false, 999⟩ := by decide
  exact ⟨hok, h ⟨60, 60, false, 999⟩ hok⟩

/-! ## Claim C8 -/

/-- C8: stepping with no `SimulationState` row raises
`ValueError("Simulation not initialized")` and leaves the (fully
committed) session exactly as it was — nothing is created or modified;
conversely, whenever the row exists, a step never raises this error (it
either succeeds or propagates the malformed-timestamp error). -/
theorem step_requires_initialized (s : Session) (wall m : Int)
    (hclean : s.committed = s.current) :
    (s.current.sim = none →
      (step_simulation s wall m).1 = Except.error SimError.notInit ∧
      (step_simulation s wall m).2 = s) ∧
    (s.current.sim ≠ none →
      (step_simulation s wall m).1 ≠ Except.error SimError.notInit) := by
  constructor
  · intro hnone
    unfold step_simulation
    rw [hnone]
    refine ⟨rfl, ?_⟩
    show rollbackS s = s
    cases s with
    | mk com cur =>
      cases hclean
      rfl
  · intro hne
    cases hs : s.current.sim with
    | none => exact absurd hs hne
    | some st0 =>
      rw [step_unfold s wall m st0 hs]
      cases hrun : runUpdates
          (tids ((stepEntry s wall m st0).current.trains.filter isActiveStatus))
          (stepEntry s wall m st0) (st0.current_simulated_datetime + m) with
      | error pe =>
        obtain ⟨e, serr⟩ := pe
        have he := runUpdates_error_char _ _ _ _ _ hrun
        dsimp only
        intro hcontra
        injection hcontra with h1
        rw [he] at h1
        cases h1
      | ok s2 =>
        have hsim2 : (commitS s2).current.sim = some { st0 with
            current_simulated_datetime := st0.current_simulated_datetime + m,
            last_updated := wall } :=
          runUpdates_ok_sim _ _ _ _ hrun
        dsimp only
        rw [hsim2]
        intro hcontra
        cases hcontra

/-- Witness for C8: on an empty store the step fails with the
not-initialized error and returns the session unchanged. -/
theorem step_requires_initialized_witness :
    (step_simulation sessionEmpty 0 5).1 = Except.error SimError.notInit ∧
    (step_simulation sessionEmpty 0 5).2 = sessionEmpty :=
  (step_requires_initialized sessionEmpty 0 5 rfl).1 rfl

/-! ## Claim C10 -/

/-- C10: in one `step` call each train's `current_waypoint_index` grows by
at most one — the arrival check of `_update_train_state` is an `if`, not a
loop, and each train is updated once per step — so catching up over
several overdue waypoints needs several steps. -/
theorem step_at_most_one_waypoint (s : Session) (wall m : Int)
    (hclean : s.committed = s.current)
    (hnd : (tids s.current.trains).Nodup) :
    (step_simulation s wall m).2.current.trains.length
      = s.current.trains.length ∧
    ∀ (i : Nat) (a b : TrainRec), s.current.trains[i]? = some a →
      (step_simulation s wall m).2.current.trains[i]? = some b →
      b.current_waypoint_index ≤ a.current_waypoint_index + 1 := by
  cases hs : s.current.sim with
  | none =>
    have hpost : (step_simulation s wall m).2 = s := by
      unfold step_simulation
      rw [hs]
      show rollbackS s = s
      cases s with
      | mk com cur =>
        cases hclean
        rfl
    rw [hpost]
    refine ⟨rfl, ?_⟩
    intro i a b ha hb
    rw [ha] at hb
    cases hb
    omega
  | some st0 =>
    have hLoop := (step_master s wall m st0 hclean hs hnd).1
    exact ⟨hLoop.1, fun i a b ha hb => (hLoop.2 i a b ha hb).2.2⟩

/-- Witness for C10 at Scenario A: the departing train's waypoint index
stays 0 ≤ 0 + 1 after the step. -/
theorem step_at_most_one_waypoint_witness :
    (step_simulation sessionA 999 60).2.current.trains.length
      = sessionA.current.trains.length :=
  (step_at_most_one_waypoint sessionA 999 60 rfl (by decide)).1

/-! ## Claim C3 -/

/-- A keyed query is unchanged by a table transformation that only touches
the row of a different key. -/
theorem filter_key_eq_of_pointwise (tid wid : Nat) (hne : wid ≠ tid) :
    ∀ (l l' : List TrainRec), l'.length = l.length →
    (∀ (i : Nat) (a b : TrainRec), l[i]? = some a → l'[i]? = some b →
      b.train_id = a.train_id ∧ (a.train_id ≠ tid → b = a)) →
    l'.filter (fun t => t.train_id == wid)
      = l.filter (fun t => t.train_id == wid) := by
  intro l
  induction l with
  | nil =>
    intro l' hlen _
    cases l' with
    | nil => rfl
    | cons b l'' => simp at hlen
  | cons a l ih =>
    intro l' hlen hpt
    cases l' with
    | nil => simp at hlen
    | cons b l'' =>
      have h0 := hpt 0 a b (by simp) (by simp)
      have htl : ∀ (i : Nat) (x y : TrainRec), l[i]? = some x →
          l''[i]? = some y → y.train_id = x.train_id ∧ (x.train_id ≠ tid → y = x) :=
        fun i x y h1 h2 =>
          hpt (i + 1) x y (by simpa using h1) (by simpa using h2)
      rw [List.filter_cons, List.filter_cons]
      by_cases hw : a.train_id = wid
      · have hbw : b.train_id = wid := by rw [h0.1, hw]
        have hba : b = a := h0.2 (by rw [hw]; exact hne)
        rw [if_pos (by simp only [beq_iff_eq]; exact hbw),
          if_pos (by simp only [beq_iff_eq]; exact hw), hba,
          ih l'' (by simpa using hlen) htl]
      · have hbw : ¬b.train_id = wid := by rw [h0.1]; exact hw
        rw [if_neg (by simp only [beq_iff_eq]; exact hbw),
          if_neg (by simp only [beq_iff_eq]; exact hw),
          ih l'' (by simpa using hlen) htl]

theorem lookupT_stable_of_stepB {tid wid : Nat} {cur cur' : DB}
    (hS : StepB tid cur cur') (hne : wid ≠ tid) :
    lookupT cur'.trains wid = lookupT cur.trains wid := by
  unfold lookupT
  rw [filter_key_eq_of_pointwise tid wid hne cur.trains cur'.trains hS.1
    (fun i a b ha hb => ⟨(hS.2 i a b ha hb).1, (hS.2 i a b ha hb).2.1⟩)]

/-- If some still-unprocessed train of the loop is running/delayed with a
malformed timestamp on its current waypoint, the loop raises. -/
theorem runUpdates_hits_malformed :
    ∀ (rem : List Nat) (s : Session) (now : Int),
    (∃ (w : TrainRec) (r : RouteRec)
      (hidx : w.current_waypoint_index < r.waypoints.length),
      lookupT s.current.trains w.train_id = some w ∧ w.train_id ∈ rem ∧
      (w.status = TrainStatus.running ∨ w.status = TrainStatus.delayed) ∧
      lookupR s.current.routes w.route_id = some r ∧
      (r.waypoints.get ⟨w.current_waypoint_index, hidx⟩).planned_arrival_time
        = some none) →
    ∃ serr, runUpdates rem s now = .error (.invalidTimestamp, serr) := by
  intro rem
  induction rem with
  | nil =>
    rintro s now ⟨w, r, hidx, _, hmem, _⟩
    cases hmem
  | cons tid rest ih =>
    rintro s now ⟨w, r, hidx, hw, hmem, hst, hR, hplan⟩
    by_cases htw : tid = w.train_id
    · subst htw
      have hndone : ¬(w.status = TrainStatus.completed
          ∨ w.status = TrainStatus.cancelled) := by
        rcases hst with h' | h' <;> rw [h'] <;> rintro (hc | hc) <;>
          exact absurd hc (by decide)
      have hnemp : ¬(r.waypoints.isEmpty = true) := by
        intro hc
        rw [List.isEmpty_iff] at hc
        rw [hc] at hidx
        exact absurd hidx (by simp)
      have hnsch : ¬(w.status = TrainStatus.scheduled
          ∧ w.scheduled_departure.isSome = true) := by
        rintro ⟨hc, _⟩
        rcases hst with h' | h' <;> rw [h'] at hc <;> exact absurd hc (by decide)
      have herr : update_train_state s w.train_id now
          = .error .invalidTimestamp := by
        unfold update_train_state
        rw [hw]
        dsimp only
        rw [if_neg hndone, hR]
        dsimp only
        rw [if_neg hnemp, if_neg hnsch, if_pos hst, dif_pos hidx, hplan]
      exact ⟨s, by simp only [runUpdates, herr]⟩
    · rcases uts_cases s tid now with herr | ⟨s'', hok, hUTS⟩
      · exact ⟨s, by simp only [runUpdates, herr]⟩
      · have hw' : lookupT s''.current.trains w.train_id = some w := by
          rw [lookupT_stable_of_stepB hUTS.1 (fun hc => htw hc.symm)]
          exact hw
        have hmem' : w.train_id ∈ rest := by
          rcases List.mem_cons.mp hmem with hc | hc
          · exact absurd hc.symm htw
          · exact hc
        have hR' : lookupR s''.current.routes w.route_id = some r := by
          rw [hUTS.2.2.2.1]
          exact hR
        obtain ⟨serr, heq⟩ := ih s'' now ⟨w, r, hidx, hw', hmem', hst, hR', hplan⟩
        exact ⟨serr, by simp only [runUpdates, hok]; exact heq⟩

/-- C3 (counterexample): with healthy train 1 (due to depart) listed before
train 2 whose current waypoint timestamp is unparsable, `step(60)` does
not isolate the failure to train 2 — the whole step raises, train 1 is
left unchanged (still `scheduled`) and the clock advance is rolled back. -/
theorem malformed_waypoint_fails_whole_step_cex :
    (step_simulation sessionMixed 999 60).1
      = Except.error SimError.invalidTimestamp ∧
    (step_simulation sessionMixed 999 60).2 = sessionMixed ∧
    (lookupT (step_simulation sessionMixed 999 60).2.current.trains 1).map
      (·.status) = some TrainStatus.scheduled ∧
    ((step_simulation sessionMixed 999 60).2.current.sim).map
      (·.current_simulated_datetime) = some 0 := by
  decide

/-- C3 (amended): a malformed `planned_arrival_time` on the current
waypoint of any active running/delayed train makes the whole step fail:
the `fromisoformat` `ValueError` is surfaced to the caller and the session
is rolled back to its last committed state (the pre-step state when no
passenger exchange committed earlier in the loop).  No per-train isolation
happens. -/
theorem malformed_waypoint_aborts_step (s : Session) (wall m : Int)
    (st0 : SimStateRec) (w : TrainRec) (r : RouteRec)
    (hidx : w.current_waypoint_index < r.waypoints.length)
    (hsim : s.current.sim = some st0)
    (hw : lookupT s.current.trains w.train_id = some w)
    (hst : w.status = TrainStatus.running ∨ w.status = TrainStatus.delayed)
    (hR : lookupR s.current.routes w.route_id = some r)
    (hplan : (r.waypoints.get
      ⟨w.current_waypoint_index, hidx⟩).planned_arrival_time = some none) :
    (step_simulation s wall m).1 = Except.error SimError.invalidTimestamp ∧
    (step_simulation s wall m).2.current
      = (step_simulation s wall m).2.committed := by
  rw [step_unfold s wall m st0 hsim]
  have hmemw : w ∈ s.current.trains := (mem_of_lookupT hw).1
  have hact : isActiveStatus w := by
    rcases hst with h' | h' <;> simp [isActiveStatus, h']
  have hmem : w.train_id
      ∈ tids ((stepEntry s wall m st0).current.trains.filter isActiveStatus) := by
    rw [stepEntry_trains]
    exact List.mem_map_of_mem (·.train_id)
      (List.mem_filter.mpr ⟨hmemw, hact⟩)
  obtain ⟨serr, hrun⟩ := runUpdates_hits_malformed
    (tids ((stepEntry s wall m st0).current.trains.filter isActiveStatus))
    (stepEntry s wall m st0) (st0.current_simulated_datetime + m)
    ⟨w, r, hidx, hw, hmem, hst, hR, hplan⟩
  rw [hrun]
  exact ⟨rfl, rfl⟩

/-- Witness for C3 (amended) on the two-train store: the step surfaces the
timestamp error. -/
theorem malformed_waypoint_aborts_step_witness :
    (step_simulation sessionMixed 7 60).1
      = Except.error SimError.invalidTimestamp :=
  (malformed_waypoint_aborts_step sessionMixed 7 60 ⟨0, 60, false, 0⟩
    trainB routeBad (by decide) rfl (by decide) (Or.inl rfl) (by decide)
    (by decide)).1

/-! ## Claim C6 -/

/-- A running train whose current waypoint has no `planned_arrival_time`
is only marked `between_stations` by its update: the arrival trigger is
suppressed entirely. -/
theorem uts_single_between (s : Session) (u : TrainRec) (r : RouteRec)
    (now : Int)
    (htr : lookupT s.current.trains u.train_id = some u)
    (hst : u.status = TrainStatus.running)
    (hR : lookupR s.current.routes u.route_id = some r)
    (hidx : u.current_waypoint_index < r.waypoints.length)
    (hplan : (r.waypoints.get
      ⟨u.current_waypoint_index, hidx⟩).planned_arrival_time = none) :
    update_train_state s u.train_id now
      = .ok (mutTrain s u.train_id betweenFields) := by
  have hndone : ¬(u.status = TrainStatus.completed
      ∨ u.status = TrainStatus.cancelled) := by
    rw [hst]
    rintro (hc | hc) <;> exact absurd hc (by decide)
  have hnemp : ¬(r.waypoints.isEmpty = true) := by
    intro hc
    rw [List.isEmpty_iff] at hc
    rw [hc] at hidx
    exact absurd hidx (by simp)
  have hnsch : ¬(u.status = TrainStatus.scheduled
      ∧ u.scheduled_departure.isSome = true) := by
    rintro ⟨hc, _⟩
    rw [hst] at hc
    exact absurd hc (by decide)
  unfold update_train_state
  rw [htr]
  dsimp only
  rw [if_neg hndone, hR]
  dsimp only
  rw [if_neg hnemp, if_neg hnsch, if_pos (Or.inl hst), dif_pos hidx, hplan]

/-- One full step on a store whose only train is such a non-arriving
runner: the clock advances, the train is merely flagged
`between_stations`, and nothing else — no passenger, route or station —
changes. -/
theorem step_single_nonarriving (st : List Nat) (rts : List RouteRec)
    (ps : List PassengerRec) (σ : SimStateRec) (u : TrainRec) (r : RouteRec)
    (wall m : Int)
    (hst : u.status = TrainStatus.running)
    (hR : lookupR rts u.route_id = some r)
    (hidx : u.current_waypoint_index < r.waypoints.length)
    (hplan : (r.waypoints.get
      ⟨u.current_waypoint_index, hidx⟩).planned_arrival_time = none) :
    step_simulation ⟨⟨st, rts, [u], ps, some σ⟩, ⟨st, rts, [u], ps, some σ⟩⟩
        wall m
      = (Except.ok { σ with
          current_simulated_datetime := σ.current_simulated_datetime + m,
          last_updated := wall },
         ⟨⟨st, rts, [betweenFields u], ps, some { σ with
            current_simulated_datetime := σ.current_simulated_datetime + m,
            last_updated := wall }⟩,
          ⟨st, rts, [betweenFields u], ps, some { σ with
            current_simulated_datetime := σ.current_simulated_datetime + m,
            last_updated := wall }⟩⟩) := by
  rw [step_unfold _ wall m σ rfl]
  have hfil : (stepEntry ⟨⟨st, rts, [u], ps, some σ⟩,
      ⟨st, rts, [u], ps, some σ⟩⟩ wall m σ).current.trains.filter isActiveStatus
      = [u] := by
    show List.filter isActiveStatus [u] = [u]
    simp [isActiveStatus, hst]
  rw [hfil]
  have hrun : runUpdates (tids [u])
      (stepEntry ⟨⟨st, rts, [u], ps, some σ⟩, ⟨st, rts, [u], ps, some σ⟩⟩
        wall m σ)
      (σ.current_simulated_datetime + m)
      = .ok (mutTrain (stepEntry ⟨⟨st, rts, [u], ps, some σ⟩,
          ⟨st, rts, [u], ps, some σ⟩⟩ wall m σ) u.train_id betweenFields) := by
    show runUpdates [u.train_id] _ _ = _
    have hlook : lookupT [u] u.train_id = some u := by
      simp [lookupT]
    rw [runUpdates,
      uts_single_between _ u r _ hlook hst hR hidx hplan]
    rfl
  have htr' : updT [u] u.train_id betweenFields = [betweenFields u] := by
    simp [updT]
  rw [hrun]
  dsimp only [mutTrain, DB.withTrains, stepEntry, commitS]
  rw [htr']

/-- Once flagged `between_stations`, the non-arriving runner is a fixed
point of stepping: any further sequence of steps only moves the clock. -/
theorem stepMany_between_fixpoint (st : List Nat) (rts : List RouteRec)
    (ps : List PassengerRec) (u : TrainRec) (r : RouteRec)
    (hst : u.status = TrainStatus.running)
    (hR : lookupR rts u.route_id = some r)
    (hidx : u.current_waypoint_index < r.waypoints.length)
    (hplan : (r.waypoints.get
      ⟨u.current_waypoint_index, hidx⟩).planned_arrival_time = none) :
    ∀ (calls : List (Int × Int)) (σ : SimStateRec),
    ∃ σ' : SimStateRec,
      stepMany ⟨⟨st, rts, [betweenFields u], ps, some σ⟩,
          ⟨st, rts, [betweenFields u], ps, some σ⟩⟩ calls
        = ⟨⟨st, rts, [betweenFields u], ps, some σ'⟩,
           ⟨st, rts, [betweenFields u], ps, some σ'⟩⟩ := by
  intro calls
  induction calls with
  | nil =>
    intro σ
    exact ⟨σ, rfl⟩
  | cons c rest ih =>
    intro σ
    have hstep := step_single_nonarriving st rts ps σ (betweenFields u) r
      c.1 c.2 hst hR hidx hplan
    have h2 : (step_simulation ⟨⟨st, rts, [betweenFields u], ps, some σ⟩,
        ⟨st, rts, [betweenFields u], ps, some σ⟩⟩ c.1 c.2).2
        = ⟨⟨st, rts, [betweenFields u], ps, some { σ with
            current_simulated_datetime := σ.current_simulated_datetime + c.2,
            last_updated := c.1 }⟩,
           ⟨st, rts, [betweenFields u], ps, some { σ with
            current_simulated_datetime := σ.current_simulated_datetime + c.2,
            last_updated := c.1 }⟩⟩ := by
      rw [hstep]
      exact rfl
    obtain ⟨σ'', hrest⟩ := ih { σ with
      current_simulated_datetime := σ.current_simulated_datetime + c.2,
      last_updated := c.1 }
    refine ⟨σ'', ?_⟩
    show stepMany (step_simulation _ c.1 c.2).2 rest = _
    rw [h2]
    exact hrest

/-- C6: a running train whose current waypoint has no
`planned_arrival_time` never auto-arrives: across arbitrarily many `step`
calls of arbitrary durations it keeps status `running`, is set to
`between_stations`, and its waypoint index, current station and passenger
count — and the whole passenger table — are unchanged; no passenger
exchange happens for it. -/
theorem no_planned_arrival_never_arrives (st : List Nat) (rts : List RouteRec)
    (ps : List PassengerRec) (σ : SimStateRec) (u : TrainRec) (r : RouteRec)
    (hst : u.status = TrainStatus.running)
    (hR : lookupR rts u.route_id = some r)
    (hidx : u.current_waypoint_index < r.waypoints.length)
    (hplan : (r.waypoints.get
      ⟨u.current_waypoint_index, hidx⟩).planned_arrival_time = none) :
    ∀ (calls : List (Int × Int)), calls ≠ [] →
    ∃ σ' : SimStateRec,
      stepMany ⟨⟨st, rts, [u], ps, some σ⟩, ⟨st, rts, [u], ps, some σ⟩⟩ calls
        = ⟨⟨st, rts, [betweenFields u], ps, some σ'⟩,
           ⟨st, rts, [betweenFields u], ps, some σ'⟩⟩ ∧
      (betweenFields u).status = TrainStatus.running ∧
      (betweenFields u).current_waypoint_index = u.current_waypoint_index ∧
      (betweenFields u).current_station_id = u.current_station_id ∧
      (betweenFields u).current_passenger_count = u.current_passenger_count ∧
      (betweenFields u).current_location_status = LocStatus.between_stations := by
  intro calls hne
  cases calls with
  | nil => exact absurd rfl hne
  | cons c rest =>
    have hstep := step_single_nonarriving st rts ps σ u r c.1 c.2
      hst hR hidx hplan
    have h2 : (step_simulation ⟨⟨st, rts, [u], ps, some σ⟩,
        ⟨st, rts, [u], ps, some σ⟩⟩ c.1 c.2).2
        = ⟨⟨st, rts, [betweenFields u], ps, some { σ with
            current_simulated_datetime := σ.current_simulated_datetime + c.2,
            last_updated := c.1 }⟩,
           ⟨st, rts, [betweenFields u], ps, some { σ with
            current_simulated_datetime := σ.current_simulated_datetime + c.2,
            last_updated := c.1 }⟩⟩ := by
      rw [hstep]
    obtain ⟨σ'', hrest⟩ := stepMany_between_fixpoint st rts ps u r hst hR
      hidx hplan rest { σ with
        current_simulated_datetime := σ.current_simulated_datetime + c.2,
        last_updated := c.1 }
    refine ⟨σ'', ?_, hst, rfl, rfl, rfl, rfl⟩
    show stepMany (step_simulation _ c.1 c.2).2 rest = _
    rw [h2]
    exact hrest

/-- Witness for C6: the concrete non-arriving runner is still at waypoint
0, between stations and running after two steps of 30 and 45 minutes. -/
theorem no_planned_arrival_never_arrives_witness :
    (stepMany ⟨⟨[1, 2], [routeNoTime], [trainNoTime], [],
        some ⟨0, 60, false, 0⟩⟩,
      ⟨[1, 2], [routeNoTime], [trainNoTime], [], some ⟨0, 60, false, 0⟩⟩⟩
      [(3, 30), (4, 45)]).current.trains = [betweenFields trainNoTime] := by
  obtain ⟨σ', heq, _⟩ := no_planned_arrival_never_arrives [1, 2]
    [routeNoTime] [] ⟨0, 60, false, 0⟩ trainNoTime routeNoTime rfl rfl
    (by decide) rfl [(3, 30), (4, 45)] (by decide)
  rw [heq]

/-! ## Claim C9 -/

theorem pInv_boardFields (tid : Nat) (now : Int) (q : PassengerRec) :
    pInv (boardFields tid now q) := by
  simp [pInv, boardFields]

theorem pInv_deboardFields (sid : Option Nat) (now : Int) (q : PassengerRec) :
    pInv (deboardFields sid now q) := by
  simp [pInv, deboardFields]

theorem pinv_updP_all {l : List PassengerRec} (pid : Nat)
    (f : PassengerRec → PassengerRec) (hf : ∀ q, pInv (f q))
    (h : ∀ p ∈ l, pInv p) : ∀ p ∈ updP l pid f, pInv p := by
  intro p hp
  rcases List.mem_map.mp hp with ⟨q, hq, he⟩
  by_cases hc : (q.passenger_id == pid) = true
  · rw [if_pos hc] at he
    rw [← he]
    exact hf q
  · rw [if_neg hc] at he
    rw [← he]
    exact h q hq

theorem board_passenger_pinv (s : Session) (pid tid : Nat) (now : Int)
    (h1 : PInvAll s.current) (h2 : PInvAll s.committed) :
    PInvAll (board_passenger s pid tid now).current ∧
    PInvAll (board_passenger s pid tid now).committed := by
  unfold board_passenger
  cases hp : get_passenger s.current pid with
  | none => exact ⟨h1, h2⟩
  | some p =>
    dsimp only
    by_cases hw : p.status = PStatus.waiting
    · rw [if_pos hw]
      have hnew : PInvAll (s.current.withPassengers
          (updP s.current.passengers pid (boardFields tid now))) :=
        pinv_updP_all pid _ (fun q => pInv_boardFields tid now q) h1
      exact ⟨hnew, hnew⟩
    · rw [if_neg hw]
      exact ⟨h1, h2⟩

theorem deboard_passenger_pinv (s : Session) (pid : Nat) (sid : Option Nat)
    (now : Int) (h1 : PInvAll s.current) (h2 : PInvAll s.committed) :
    PInvAll (deboard_passenger s pid sid now).current ∧
    PInvAll (deboard_passenger s pid sid now).committed := by
  unfold deboard_passenger
  cases hp : get_passenger s.current pid with
  | none => exact ⟨h1, h2⟩
  | some p =>
    dsimp only
    by_cases hw : p.status = PStatus.boarded
    · rw [if_pos hw]
      have hnew : PInvAll (s.current.withPassengers
          (updP s.current.passengers pid (deboardFields sid now))) :=
        pinv_updP_all pid _ (fun q => pInv_deboardFields sid now q) h1
      exact ⟨hnew, hnew⟩
    · rw [if_neg hw]
      exact ⟨h1, h2⟩

theorem exchange_pinv (s : Session) (tid : Nat) (sid : Option Nat)
    (now : Int) (h1 : PInvAll s.current) (h2 : PInvAll s.committed) :
    PInvAll (handle_passenger_exchange s tid sid now).current ∧
    PInvAll (handle_passenger_exchange s tid sid now).committed := by
  have hstep1 : ∀ (L : List PassengerRec) (b : Session),
      (PInvAll b.current ∧ PInvAll b.committed) →
      PInvAll (deboardLoop tid sid now L b).current ∧
      PInvAll (deboardLoop tid sid now L b).committed := by
    intro L b hb
    unfold deboardLoop
    refine foldl_pres (fun b => PInvAll b.current ∧ PInvAll b.committed)
      _ ?_ L b hb
    intro b' p hb'
    exact deboard_passenger_pinv b' p.passenger_id sid now hb'.1 hb'.2
  have hstep2 : ∀ (L : List PassengerRec) (b : Session),
      (PInvAll b.current ∧ PInvAll b.committed) →
      PInvAll (boardLoop tid now L b).current ∧
      PInvAll (boardLoop tid now L b).committed := by
    intro L b hb
    unfold boardLoop
    refine foldl_pres (fun b => PInvAll b.current ∧ PInvAll b.committed)
      _ ?_ L b hb
    intro b' p hb'
    exact board_passenger_pinv b' p.passenger_id tid now hb'.1 hb'.2
  unfold handle_passenger_exchange
  have hd := hstep1 (get_passengers_getting_off_at_station s.current tid sid)
    s ⟨h1, h2⟩
  cases hl : lookupT (deboardLoop tid sid now
      (get_passengers_getting_off_at_station s.current tid sid) s).current.trains
      tid with
  | none => simpa [hl] using hd
  | some train =>
    simp only [hl]
    exact hstep2 _ _ hd

/-- Exhaustive shape of one `_update_train_state` result: an error, the
unchanged session, a single keyed train mutation, or the
arrival-plus-exchange compound. -/
theorem uts_forms (s : Session) (tid : Nat) (now : Int) :
    update_train_state s tid now = .error .invalidTimestamp ∨
    update_train_state s tid now = .ok s ∨
    (∃ w, update_train_state s tid now
      = .ok (mutTrain s tid (departFields now w))) ∨
    update_train_state s tid now = .ok (mutTrain s tid betweenFields) ∨
    (∃ (train : TrainRec) (sid : Option Nat) (pa : Int)
        (g : TrainRec → TrainRec),
      lookupT s.current.trains tid = some train ∧
      (g = completeFields now ∨ g = advanceFields) ∧
      update_train_state s tid now
        = .ok (mutTrain (handle_passenger_exchange
            (mutTrain s tid (arriveFields sid now pa)) tid sid now) tid g)) := by
  unfold update_train_state
  cases hT : lookupT s.current.trains tid with
  | none => exact Or.inr (Or.inl rfl)
  | some train =>
  dsimp only
  by_cases hdone : train.status = TrainStatus.completed ∨ train.status = TrainStatus.cancelled
  · rw [if_pos hdone]
    exact Or.inr (Or.inl rfl)
  · rw [if_neg hdone]
    cases hR : lookupR s.current.routes train.route_id with
    | none => exact Or.inr (Or.inl rfl)
    | some route =>
    dsimp only
    by_cases hW : route.waypoints.isEmpty
    · rw [if_pos hW]
      exact Or.inr (Or.inl rfl)
    · rw [if_neg hW]
      by_cases hsch : train.status = TrainStatus.scheduled ∧ train.scheduled_departure.isSome
      · rw [if_pos hsch]
        cases hdep : train.scheduled_departure with
        | none => exact Or.inr (Or.inl rfl)
        | some dep =>
          dsimp only
          by_cases hle : dep ≤ now
          · rw [if_pos hle]
            exact Or.inr (Or.inr (Or.inl ⟨route.waypoints, rfl⟩))
          · rw [if_neg hle]
            exact Or.inr (Or.inl rfl)
      · rw [if_neg hsch]
        by_cases hrun : train.status = TrainStatus.running ∨ train.status = TrainStatus.delayed
        · rw [if_pos hrun]
          by_cases hidx : train.current_waypoint_index < route.waypoints.length
          · rw [dif_pos hidx]
            cases hpa : (route.waypoints.get ⟨train.current_waypoint_index, hidx⟩).planned_arrival_time with
            | none => exact Or.inr (Or.inr (Or.inr (Or.inl rfl)))
            | some parsed =>
              dsimp only
              cases parsed with
              | none => exact Or.inl rfl
              | some pa =>
                dsimp only
                by_cases hle : pa ≤ now
                · rw [if_pos hle]
                  by_cases hlast : train.current_waypoint_index = route.waypoints.length - 1
                  · rw [if_pos hlast]
                    exact Or.inr (Or.inr (Or.inr (Or.inr ⟨train, _, pa,
                      completeFields now, rfl, Or.inl rfl, rfl⟩)))
                  · rw [if_neg hlast]
                    exact Or.inr (Or.inr (Or.inr (Or.inr ⟨train, _, pa,
                      advanceFields, rfl, Or.inr rfl, rfl⟩)))
                · rw [if_neg hle]
                  exact Or.inr (Or.inr (Or.inr (Or.inl rfl)))
          · rw [dif_neg hidx]
            exact Or.inr (Or.inl rfl)
        · rw [if_neg hrun]
          exact Or.inr (Or.inl rfl)

theorem uts_pinv (s : Session) (tid : Nat) (now : Int) (s' : Session)
    (hok : update_train_state s tid now = .ok s')
    (h1 : PInvAll s.current) (h2 : PInvAll s.committed) :
    PInvAll s'.current ∧ PInvAll s'.committed := by
  have hmutP : ∀ (x : Session) (f : TrainRec → TrainRec),
      (mutTrain x tid f).current.passengers = x.current.passengers := fun x f => rfl
  rcases uts_forms s tid now with h | h | ⟨w, h⟩ | h | ⟨train, sid, pa, g, _, _, h⟩ <;>
    rw [hok] at h
  · cases h
  · cases h
    exact ⟨h1, h2⟩
  · cases h
    exact ⟨h1, h2⟩
  · cases h
    exact ⟨h1, h2⟩
  · cases h
    have hx := exchange_pinv (mutTrain s tid (arriveFields sid now pa)) tid
      sid now h1 h2
    exact ⟨hx.1, hx.2⟩

theorem runUpdates_pinv :
    ∀ (rem : List Nat) (s : Session) (now : Int),
    PInvAll s.current → PInvAll s.committed →
    (∀ s', runUpdates rem s now = .ok s' →
      PInvAll s'.current ∧ PInvAll s'.committed) ∧
    (∀ e serr, runUpdates rem s now = .error (e, serr) →
      PInvAll serr.current ∧ PInvAll serr.committed) := by
  intro rem
  induction rem with
  | nil =>
    intro s now h1 h2
    constructor
    · intro s' h
      simp only [runUpdates] at h
      cases h
      exact ⟨h1, h2⟩
    · intro e serr h
      simp [runUpdates] at h
  | cons tid rest ih =>
    intro s now h1 h2
    cases hu : update_train_state s tid now with
    | error e =>
      constructor
      · intro s' h
        simp [runUpdates, hu] at h
      · intro e' serr h
        simp only [runUpdates, hu, Except.error.injEq, Prod.mk.injEq] at h
        rw [← h.2]
        exact ⟨h1, h2⟩
    | ok s'' =>
      obtain ⟨h1', h2'⟩ := uts_pinv s tid now s'' hu h1 h2
      have hrec := ih s'' now h1' h2'
      constructor
      · intro s' h
        simp only [runUpdates, hu] at h
        exact hrec.1 s' h
      · intro e serr h
        simp only [runUpdates, hu] at h
        exact hrec.2 e serr h

/-- C9: for every passenger, `status == boarded ⇔ boarded_train_id` is
set.  The equivalence holds for the row `create_passenger` inserts and is
preserved — in both the in-transaction and the committed view — by
`board_passenger`, `deboard_passenger`, and any `step_simulation` call,
whether it succeeds or rolls back. -/
theorem boarded_iff_train_set_invariant (s : Session)
    (h1 : PInvAll s.current) (h2 : PInvAll s.committed) :
    (∀ (origin dest cur newId : Nat),
      PInvAll (create_passenger s origin dest cur newId).2.current ∧
      PInvAll (create_passenger s origin dest cur newId).2.committed) ∧
    (∀ (pid tid : Nat) (now : Int),
      PInvAll (board_passenger s pid tid now).current ∧
      PInvAll (board_passenger s pid tid now).committed) ∧
    (∀ (pid : Nat) (sid : Option Nat) (now : Int),
      PInvAll (deboard_passenger s pid sid now).current ∧
      PInvAll (deboard_passenger s pid sid now).committed) ∧
    (∀ (wall m : Int),
      PInvAll (step_simulation s wall m).2.current ∧
      PInvAll (step_simulation s wall m).2.committed) := by
  refine ⟨?_, ?_, ?_, ?_⟩
  · intro origin dest cur newId
    unfold create_passenger
    by_cases hok : origin ∈ s.current.stations ∧ dest ∈ s.current.stations
        ∧ cur ∈ s.current.stations
    · rw [if_pos hok]
      by_cases heq : origin = dest
      · rw [if_pos heq]
        exact ⟨h2, h2⟩
      · rw [if_neg heq]
        have hnew : PInvAll (s.current.withPassengers (s.current.passengers
            ++ [⟨newId, origin, dest, some cur, none, PStatus.waiting,
                none, none⟩])) := by
          intro p hp
          rcases List.mem_append.mp hp with hp' | hp'
          · exact h1 p hp'
          · rcases List.mem_singleton.mp hp' with rfl
            simp [pInv]
        exact ⟨hnew, hnew⟩
    · rw [if_neg hok]
      exact ⟨h2, h2⟩
  · intro pid tid now
    exact board_passenger_pinv s pid tid now h1 h2
  · intro pid sid now
    exact deboard_passenger_pinv s pid sid now h1 h2
  · intro wall m
    unfold step_simulation
    cases hs : s.current.sim with
    | none => exact ⟨h2, h2⟩
    | some st0 =>
      dsimp only
      have hrec := runUpdates_pinv
        ((List.filter isActiveStatus s.current.trains).map (·.train_id))
        { s with current := { s.current with sim := some { st0 with
            current_simulated_datetime := st0.current_simulated_datetime + m,
            last_updated := wall } } }
        (st0.current_simulated_datetime + m) h1 h2
      cases hrun : runUpdates
          ((List.filter isActiveStatus s.current.trains).map (·.train_id))
          { s with current := { s.current with sim := some { st0 with
              current_simulated_datetime := st0.current_simulated_datetime + m,
              last_updated := wall } } }
          (st0.current_simulated_datetime + m) with
      | error pe =>
        obtain ⟨e, serr⟩ := pe
        obtain ⟨hc, hm⟩ := hrec.2 e serr hrun
        exact ⟨hm, hm⟩
      | ok s2 =>
        obtain ⟨hc, _⟩ := hrec.1 s2 hrun
        dsimp only
        cases (commitS s2).current.sim <;> exact ⟨hc, hc⟩

/-- Witness for C9 on the exchange store: the invariant survives a board
call there. -/
theorem boarded_iff_train_set_invariant_witness :
    PInvAll (board_passenger sessionEx 2 5 3).current :=
  ((boarded_iff_train_set_invariant sessionEx
    (by intro p hp; fin_cases hp <;> simp [pInv, paxOff, paxW1, paxW2, paxW3])
    (by intro p hp; fin_cases hp <;> simp [pInv, paxOff, paxW1, paxW2, paxW3])).2.1
    2 5 3).1

/-! ## Keyed-update algebra for the exchange characterization -/

theorem lookupP_updP (l : List PassengerRec) (pid qid : Nat)
    (f : PassengerRec → PassengerRec)
    (hf : ∀ p, (f p).passenger_id = p.passenger_id) :
    lookupP (updP l pid f) qid
      = (lookupP l qid).map
          (fun p => if p.passenger_id == pid then f p else p) :=
  lookupP_map l _ (fun p => by
    by_cases h : (p.passenger_id == pid) = true <;> simp [h, hf]) qid

theorem lookupP_updP_ne (l : List PassengerRec) (pid qid : Nat)
    (f : PassengerRec → PassengerRec)
    (hf : ∀ p, (f p).passenger_id = p.passenger_id) (hne : qid ≠ pid) :
    lookupP (updP l pid f) qid = lookupP l qid := by
  rw [lookupP_updP l pid qid f hf]
  cases hq : lookupP l qid with
  | none => rfl
  | some p =>
    have hid := (mem_of_lookupP hq).2
    simp [hid, hne]

theorem lookupT_updT_self (l : List TrainRec) (tid : Nat)
    (f : TrainRec → TrainRec) (hf : ∀ t, (f t).train_id = t.train_id) :
    lookupT (updT l tid f) tid = (lookupT l tid).map f := by
  have h := lookupT_map l (fun t => if t.train_id == tid then f t else t)
    (fun t => by by_cases hc : (t.train_id == tid) = true <;> simp [hc, hf])
    tid
  rw [show updT l tid f
      = l.map (fun t => if t.train_id == tid then f t else t) from rfl, h]
  cases hq : lookupT l tid with
  | none => rfl
  | some t =>
    have hid := (mem_of_lookupT hq).2
    simp [hid]

theorem updT_congr (l : List TrainRec) (tid : Nat)
    (f g : TrainRec → TrainRec) (h : ∀ t, f t = g t) :
    updT l tid f = updT l tid g := by
  unfold updT
  exact List.map_congr_left (fun t _ => by
    by_cases hc : (t.train_id == tid) = true <;> simp [hc, h])

theorem updT_updT (l : List TrainRec) (tid : Nat)
    (f g : TrainRec → TrainRec) (hf : ∀ t, (f t).train_id = t.train_id) :
    updT (updT l tid f) tid g = updT l tid (fun t => g (f t)) := by
  unfold updT
  rw [List.map_map]
  exact List.map_congr_left (fun t _ => by
    by_cases hc : (t.train_id == tid) = true
    · simp [Function.comp, hc, hf]
    · simp [Function.comp, hc])

theorem updT_id (l : List TrainRec) (tid : Nat) :
    updT l tid (fun t => t) = l := by
  unfold updT
  simp

theorem pySliceTo_sublist {α : Type} (xs : List α) (n : Int) :
    List.Sublist (pySliceTo xs n) xs := by
  unfold pySliceTo
  by_cases h : 0 ≤ n <;> simp [h, List.take_sublist]

theorem pySliceTo_nonneg {α : Type} (xs : List α) (n : Int) (h : 0 ≤ n) :
    pySliceTo xs n = xs.take n.toNat := by
  unfold pySliceTo
  rw [if_pos h]

theorem deboardMark_pid (K : List Nat) (sid : Option Nat) (now : Int)
    (q : PassengerRec) :
    (deboardMark K sid now q).passenger_id = q.passenger_id := by
  unfold deboardMark
  split <;> rfl

theorem boardMark_pid (K : List Nat) (tid : Nat) (now : Int)
    (q : PassengerRec) :
    (boardMark K tid now q).passenger_id = q.passenger_id := by
  unfold boardMark
  split <;> rfl

/-- The net effect of the deboarding loop, provided its input list is the
kind of list `get_passengers_getting_off_at_station` produces: rows of the
store, distinct, `boarded` on the exchanged train.  Passengers are marked
by key, the train's count drops by the list length, and for any train the
ledger count drops accordingly. -/
theorem deboardLoop_char (tid : Nat) (sid : Option Nat) (now : Int) :
    ∀ (L : List PassengerRec) (s : Session),
    (pids s.current.passengers).Nodup →
    (pids L).Nodup →
    (∀ p ∈ L, lookupP s.current.passengers p.passenger_id = some p ∧
      p.status = PStatus.boarded ∧ p.boarded_train_id = some tid) →
    (deboardLoop tid sid now L s).current.passengers
        = s.current.passengers.map (deboardMark (pids L) sid now) ∧
    (deboardLoop tid sid now L s).current.trains
        = updT s.current.trains tid (subCount (L.length : Int)) ∧
    (deboardLoop tid sid now L s).current.sim = s.current.sim ∧
    (deboardLoop tid sid now L s).current.routes = s.current.routes ∧
    (deboardLoop tid sid now L s).current.stations = s.current.stations ∧
    (∀ tid' : Nat,
      (((deboardLoop tid sid now L s).current.passengers.countP
          (boardedPred tid') : Int))
        = (s.current.passengers.countP (boardedPred tid') : Int)
          - (if tid' = tid then (L.length : Int) else 0)) := by
  intro L
  induction L with
  | nil =>
    intro s hndP hndL hL
    have hid : ∀ q ∈ s.current.passengers,
        deboardMark (pids ([] : List PassengerRec)) sid now q = q := by
      intro q _
      simp [deboardMark, pids]
    have hsub0 : ∀ t : TrainRec,
        subCount ((List.length ([] : List PassengerRec)) : Int) t = t := by
      intro t
      unfold subCount
      have : t.current_passenger_count
          - ((List.length ([] : List PassengerRec)) : Int)
          = t.current_passenger_count := by simp
      rw [this]
    refine ⟨?_, ?_, rfl, rfl, rfl, ?_⟩
    · show s.current.passengers = _
      rw [List.map_congr_left hid, List.map_id']
    · show s.current.trains = _
      rw [updT_congr _ _ _ _ hsub0, updT_id]
    · intro tid'
      show ((s.current.passengers.countP (boardedPred tid') : Int)) = _
      simp
  | cons p L' ih =>
    intro s hndP hndL hL
    obtain ⟨hlook, hstat, hbrd⟩ := hL p (List.mem_cons_self p L')
    have hdb : deboard_passenger s p.passenger_id sid now
        = commitS { s with current := (s.current.withPassengers
            (updP s.current.passengers p.passenger_id
              (deboardFields sid now))) } := by
      unfold deboard_passenger
      rw [show get_passenger s.current p.passenger_id = some p from hlook]
      dsimp only
      rw [if_pos hstat]
    have hstep : deboardLoop tid sid now (p :: L') s
        = deboardLoop tid sid now L'
            (mutTrain (deboard_passenger s p.passenger_id sid now) tid
              decCount) := rfl
    set s1 := mutTrain (deboard_passenger s p.passenger_id sid now) tid
      decCount with hs1
    have hs1p : s1.current.passengers
        = updP s.current.passengers p.passenger_id (deboardFields sid now) := by
      rw [hs1, hdb]
      rfl
    have hs1t : s1.current.trains = updT s.current.trains tid decCount := by
      rw [hs1, hdb]
      rfl
    have hs1sim : s1.current.sim = s.current.sim := by
      rw [hs1, hdb]
      rfl
    have hs1rts : s1.current.routes = s.current.routes := by
      rw [hs1, hdb]
      rfl
    have hs1st : s1.current.stations = s.current.stations := by
      rw [hs1, hdb]
      rfl
    have hpid_not : p.passenger_id ∉ pids L' := (List.nodup_cons.mp hndL).1
    have hndP1 : (pids s1.current.passengers).Nodup := by
      rw [hs1p, pids_updP _ _ (deboardFields sid now) (fun q => rfl)]
      exact hndP
    have hL1 : ∀ q ∈ L', lookupP s1.current.passengers q.passenger_id
        = some q ∧ q.status = PStatus.boarded
        ∧ q.boarded_train_id = some tid := by
      intro q hq
      obtain ⟨hlq, hsq, hbq⟩ := hL q (List.mem_cons_of_mem p hq)
      have hne : q.passenger_id ≠ p.passenger_id := fun he =>
        hpid_not (by rw [← he]; exact List.mem_map_of_mem _ hq)
      rw [hs1p,
        lookupP_updP_ne _ _ _ (deboardFields sid now) (fun q => rfl) hne]
      exact ⟨hlq, hsq, hbq⟩
    obtain ⟨ihp, iht, ihsim, ihrts, ihst, ihcnt⟩ :=
      ih s1 hndP1 (List.nodup_cons.mp hndL).2 hL1
    refine ⟨?_, ?_, ?_, ?_, ?_, ?_⟩
    · rw [hstep, ihp, hs1p,
        show updP s.current.passengers p.passenger_id (deboardFields sid now)
          = s.current.passengers.map (fun q =>
              if q.passenger_id == p.passenger_id then deboardFields sid now q
              else q) from rfl,
        List.map_map]
      apply List.map_congr_left
      intro q _
      by_cases hc : q.passenger_id = p.passenger_id
      · have hnm : q.passenger_id ∉ pids L' := by
          rw [hc]
          exact hpid_not
        simp [Function.comp, deboardMark, pids, hc, hnm]
        intro x hx hxp
        exact absurd (show q.passenger_id ∈ pids L' by
          rw [hc, ← hxp]
          exact List.mem_map_of_mem _ hx) hnm
      · by_cases hm : q.passenger_id ∈ pids L' <;>
          simp [Function.comp, deboardMark, pids, hc, hm]
    · rw [hstep, iht, hs1t,
        updT_updT _ _ decCount (subCount (L'.length : Int)) (fun t => rfl)]
      apply updT_congr
      intro t
      have hAB : (decCount t).current_passenger_count - (L'.length : Int)
          = t.current_passenger_count - ((p :: L').length : Int) := by
        unfold decCount
        simp only [List.length_cons]
        push_cast
        ring
      exact congrArg
        (fun c => { decCount t with current_passenger_count := c }) hAB
    · rw [hstep, ihsim, hs1sim]
    · rw [hstep, ihrts, hs1rts]
    · rw [hstep, ihst, hs1st]
    · intro tid'
      have hstepc := countP_updP_int s.current.passengers p.passenger_id
        (deboardFields sid now) (boardedPred tid') hndP p hlook
      have hfin := ihcnt tid'
      rw [hstep, hfin, hs1p, hstepc]
      have hPd : boardedPred tid' (deboardFields sid now p) = false := by
        simp [boardedPred, deboardFields]
      by_cases hq : tid' = tid
      · have hPp : boardedPred tid' p = true := by
          simp [boardedPred, hbrd, hstat, hq]
        rw [hPd, hPp]
        simp only [hq, if_true, if_false, List.length_cons]
        push_cast
        ring
      · have hPp : boardedPred tid' p = false := by
          simp [boardedPred, hbrd, hstat]
          exact fun h => hq h.symm
        rw [hPd, hPp]
        simp only [hq, if_false]
        ring

/-- The net effect of the boarding loop, provided its input list consists
of distinct `waiting` rows of the store (as the slice of
`get_waiting_passengers_at_station` is): passengers are marked by key, the
train's count rises by the list length, and for any train the ledger count
rises accordingly. -/
theorem boardLoop_char (tid : Nat) (now : Int) :
    ∀ (L : List PassengerRec) (s : Session),
    (pids s.current.passengers).Nodup →
    (pids L).Nodup →
    (∀ p ∈ L, lookupP s.current.passengers p.passenger_id = some p ∧
      p.status = PStatus.waiting) →
    (boardLoop tid now L s).current.passengers
        = s.current.passengers.map (boardMark (pids L) tid now) ∧
    (boardLoop tid now L s).current.trains
        = updT s.current.trains tid (addCount (L.length : Int)) ∧
    (boardLoop tid now L s).current.sim = s.current.sim ∧
    (boardLoop tid now L s).current.routes = s.current.routes ∧
    (boardLoop tid now L s).current.stations = s.current.stations ∧
    (∀ tid' : Nat,
      (((boardLoop tid now L s).current.passengers.countP
          (boardedPred tid') : Int))
        = (s.current.passengers.countP (boardedPred tid') : Int)
          + (if tid' = tid then (L.length : Int) else 0)) := by
  intro L
  induction L with
  | nil =>
    intro s hndP hndL hL
    have hid : ∀ q ∈ s.current.passengers,
        boardMark (pids ([] : List PassengerRec)) tid now q = q := by
      intro q _
      simp [boardMark, pids]
    have hadd0 : ∀ t : TrainRec,
        addCount ((List.length ([] : List PassengerRec)) : Int) t = t := by
      intro t
      unfold addCount
      have : t.current_passenger_count
          + ((List.length ([] : List PassengerRec)) : Int)
          = t.current_passenger_count := by simp
      rw [this]
    refine ⟨?_, ?_, rfl, rfl, rfl, ?_⟩
    · show s.current.passengers = _
      rw [List.map_congr_left hid, List.map_id']
    · show s.current.trains = _
      rw [updT_congr _ _ _ _ hadd0, updT_id]
    · intro tid'
      show ((s.current.passengers.countP (boardedPred tid') : Int)) = _
      simp
  | cons p L' ih =>
    intro s hndP hndL hL
    obtain ⟨hlook, hstat⟩ := hL p (List.mem_cons_self p L')
    have hbd : board_passenger s p.passenger_id tid now
        = commitS { s with current := (s.current.withPassengers
            (updP s.current.passengers p.passenger_id
              (boardFields tid now))) } := by
      unfold board_passenger
      rw [show get_passenger s.current p.passenger_id = some p from hlook]
      dsimp only
      rw [if_pos hstat]
    have hstep : boardLoop tid now (p :: L') s
        = boardLoop tid now L'
            (mutTrain (board_passenger s p.passenger_id tid now) tid
              incCount) := rfl
    set s1 := mutTrain (board_passenger s p.passenger_id tid now) tid
      incCount with hs1
    have hs1p : s1.current.passengers
        = updP s.current.passengers p.passenger_id (boardFields tid now) := by
      rw [hs1, hbd]
      rfl
    have hs1t : s1.current.trains = updT s.current.trains tid incCount := by
      rw [hs1, hbd]
      rfl
    have hs1sim : s1.current.sim = s.current.sim := by
      rw [hs1, hbd]
      rfl
    have hs1rts : s1.current.routes = s.current.routes := by
      rw [hs1, hbd]
      rfl
    have hs1st : s1.current.stations = s.current.stations := by
      rw [hs1, hbd]
      rfl
    have hpid_not : p.passenger_id ∉ pids L' := (List.nodup_cons.mp hndL).1
    have hndP1 : (pids s1.current.passengers).Nodup := by
      rw [hs1p, pids_updP _ _ (boardFields tid now) (fun q => rfl)]
      exact hndP
    have hL1 : ∀ q ∈ L', lookupP s1.current.passengers q.passenger_id
        = some q ∧ q.status = PStatus.waiting := by
      intro q hq
      obtain ⟨hlq, hsq⟩ := hL q (List.mem_cons_of_mem p hq)
      have hne : q.passenger_id ≠ p.passenger_id := fun he =>
        hpid_not (by rw [← he]; exact List.mem_map_of_mem _ hq)
      rw [hs1p,
        lookupP_updP_ne _ _ _ (boardFields tid now) (fun q => rfl) hne]
      exact ⟨hlq, hsq⟩
    obtain ⟨ihp, iht, ihsim, ihrts, ihst, ihcnt⟩ :=
      ih s1 hndP1 (List.nodup_cons.mp hndL).2 hL1
    refine ⟨?_, ?_, ?_, ?_, ?_, ?_⟩
    · rw [hstep, ihp, hs1p,
        show updP s.current.passengers p.passenger_id (boardFields tid now)
          = s.current.passengers.map (fun q =>
              if q.passenger_id == p.passenger_id then boardFields tid now q
              else q) from rfl,
        List.map_map]
      apply List.map_congr_left
      intro q _
      by_cases hc : q.passenger_id = p.passenger_id
      · have hnm : q.passenger_id ∉ pids L' := by
          rw [hc]
          exact hpid_not
        simp [Function.comp, boardMark, pids, hc, hnm]
        intro x hx hxp
        exact absurd (show q.passenger_id ∈ pids L' by
          rw [hc, ← hxp]
          exact List.mem_map_of_mem _ hx) hnm
      · by_cases hm : q.passenger_id ∈ pids L' <;>
          simp [Function.comp, boardMark, pids, hc, hm]
    · rw [hstep, iht, hs1t,
        updT_updT _ _ incCount (addCount (L'.length : Int)) (fun t => rfl)]
      apply updT_congr
      intro t
      have hAB : (incCount t).current_passenger_count + (L'.length : Int)
          = t.current_passenger_count + ((p :: L').length : Int) := by
        unfold incCount
        simp only [List.length_cons]
        push_cast
        ring
      exact congrArg
        (fun c => { incCount t with current_passenger_count := c }) hAB
    · rw [hstep, ihsim, hs1sim]
    · rw [hstep, ihrts, hs1rts]
    · rw [hstep, ihst, hs1st]
    · intro tid'
      have hstepc := countP_updP_int s.current.passengers p.passenger_id
        (boardFields tid now) (boardedPred tid') hndP p hlook
      have hfin := ihcnt tid'
      rw [hstep, hfin, hs1p, hstepc]
      have hPp : boardedPred tid' p = false := by
        simp [boardedPred, hstat]
      by_cases hq : tid' = tid
      · have hPb : boardedPred tid' (boardFields tid now p) = true := by
          simp [boardedPred, boardFields, hq]
        rw [hPb, hPp]
        simp only [hq, if_true, if_false, List.length_cons]
        push_cast
        ring
      · have hPb : boardedPred tid' (boardFields tid now p) = false := by
          simp [boardedPred, boardFields]
          exact fun h => hq h.symm
        rw [hPb, hPp]
        simp only [hq, if_false]
        ring

/-! ## The selected deboard/board lists and the exchange unfolding -/

theorem subCount_tid (d : Int) (t : TrainRec) :
    (subCount d t).train_id = t.train_id := rfl

theorem subCount_cap (d : Int) (t : TrainRec) :
    (subCount d t).passenger_capacity = t.passenger_capacity := rfl

theorem subCount_count (d : Int) (t : TrainRec) :
    (subCount d t).current_passenger_count
      = t.current_passenger_count - d := rfl

theorem addCount_tid (d : Int) (t : TrainRec) :
    (addCount d t).train_id = t.train_id := rfl

theorem addCount_cap (d : Int) (t : TrainRec) :
    (addCount d t).passenger_capacity = t.passenger_capacity := rfl

theorem addCount_count (d : Int) (t : TrainRec) :
    (addCount d t).current_passenger_count
      = t.current_passenger_count + d := rfl

theorem pids_nodup_of_sublist {l₁ l₂ : List PassengerRec}
    (h : List.Sublist l₁ l₂) (hnd : (pids l₂).Nodup) : (pids l₁).Nodup :=
  List.Nodup.sublist (List.Sublist.map _ h) hnd

/-- What membership in the deboard query result means. -/
theorem exchDeb_spec (db : DB) (tid : Nat) (sid : Option Nat)
    (hnd : (pids db.passengers).Nodup) :
    (pids (exchDeb db tid sid)).Nodup ∧
    ∀ p ∈ exchDeb db tid sid,
      lookupP db.passengers p.passenger_id = some p ∧
      p.status = PStatus.boarded ∧ p.boarded_train_id = some tid := by
  constructor
  · exact pids_nodup_of_sublist (List.filter_sublist _) hnd
  · intro p hp
    unfold exchDeb get_passengers_getting_off_at_station at hp
    rcases List.mem_filter.mp hp with ⟨hpl, hpred⟩
    simp only [Bool.and_eq_true, beq_iff_eq] at hpred
    exact ⟨lookupP_of_mem hnd hpl, hpred.2, hpred.1.1⟩

/-- What membership in the waiting query result means. -/
theorem exchWait_spec (db : DB) (sid : Option Nat)
    (hnd : (pids db.passengers).Nodup) :
    (pids (exchWait db sid)).Nodup ∧
    ∀ p ∈ exchWait db sid,
      lookupP db.passengers p.passenger_id = some p ∧
      p.status = PStatus.waiting ∧ p.current_station_id = sid := by
  constructor
  · exact pids_nodup_of_sublist (List.filter_sublist _) hnd
  · intro p hp
    unfold exchWait get_waiting_passengers_at_station at hp
    rcases List.mem_filter.mp hp with ⟨hpl, hpred⟩
    simp only [Bool.and_eq_true, beq_iff_eq] at hpred
    exact ⟨lookupP_of_mem hnd hpl, hpred.2, hpred.1⟩

/-- Marking the deboarded rows does not change which rows are `waiting` at
the station: deboarded rows were `boarded` before and `arrived` after, so
the waiting filter rejects them on both sides and fixes everyone else. -/
theorem waiting_filter_deboardMark (l : List PassengerRec)
    (D : List PassengerRec) (sid : Option Nat) (now : Int)
    (hnd : (pids l).Nodup)
    (hD : ∀ p ∈ D, lookupP l p.passenger_id = some p ∧
      p.status = PStatus.boarded) :
    (l.map (deboardMark (pids D) sid now)).filter
        (fun p => p.current_station_id == sid && p.status == PStatus.waiting)
      = l.filter
        (fun p => p.current_station_id == sid
          && p.status == PStatus.waiting) := by
  have hkey : ∀ p ∈ l, p.passenger_id ∈ pids D →
      p.status = PStatus.boarded := by
    intro p hp hk
    rcases List.mem_map.mp hk with ⟨d, hd, hdp⟩
    have hdl := (hD d hd).1
    have hpl := lookupP_of_mem hnd hp
    rw [show d.passenger_id = p.passenger_id from hdp] at hdl
    have : d = p := Option.some.inj (hdl.symm.trans hpl)
    rw [← this]
    exact (hD d hd).2
  rw [List.filter_map]
  have hcong : l.filter (fun p =>
      ((deboardMark (pids D) sid now p).current_station_id == sid
        && (deboardMark (pids D) sid now p).status == PStatus.waiting))
      = l.filter (fun p => p.current_station_id == sid
          && p.status == PStatus.waiting) := by
    apply List.filter_congr
    intro p hp
    by_cases hk : p.passenger_id ∈ pids D
    · have hb := hkey p hp hk
      have hmk : deboardMark (pids D) sid now p
          = deboardFields sid now p := by
        unfold deboardMark
        rw [if_pos (by simpa using hk)]
      rw [hmk]
      have h1 : (PStatus.arrived == PStatus.waiting) = false := by decide
      have h2 : (PStatus.boarded == PStatus.waiting) = false := by decide
      simp [deboardFields, hb, h1, h2]
    · have hmk : deboardMark (pids D) sid now p = p := by
        unfold deboardMark
        rw [if_neg (by simpa using hk)]
      rw [hmk]
  rw [show ((fun p : PassengerRec => p.current_station_id == sid
        && p.status == PStatus.waiting) ∘ deboardMark (pids D) sid now)
      = (fun p => ((deboardMark (pids D) sid now p).current_station_id == sid
          && (deboardMark (pids D) sid now p).status == PStatus.waiting))
    from rfl, hcong]
  have hfix : ∀ p ∈ l.filter (fun p => p.current_station_id == sid
      && p.status == PStatus.waiting),
      deboardMark (pids D) sid now p = p := by
    intro p hp
    rcases List.mem_filter.mp hp with ⟨hpl, hpred⟩
    simp only [Bool.and_eq_true, beq_iff_eq] at hpred
    have hnk : p.passenger_id ∉ pids D := by
      intro hk
      rw [hkey p hpl hk] at hpred
      exact absurd hpred.2 (by simp)
    unfold deboardMark
    rw [if_neg (by simpa using hnk)]
  rw [List.map_congr_left hfix, List.map_id']

/-- `_handle_passenger_exchange` unfolded through its `let` bindings, with
the selected lists written via `exchDeb`/`exchWait`. -/
theorem exchange_unfold (s : Session) (tid : Nat) (sid : Option Nat)
    (now : Int) :
    handle_passenger_exchange s tid sid now
      = (match lookupT (deboardLoop tid sid now
            (exchDeb s.current tid sid) s).current.trains tid with
        | none => deboardLoop tid sid now (exchDeb s.current tid sid) s
        | some train => boardLoop tid now
            (pySliceTo (exchWait (deboardLoop tid sid now
                (exchDeb s.current tid sid) s).current sid)
              (train.passenger_capacity - train.current_passenger_count))
            (deboardLoop tid sid now (exchDeb s.current tid sid) s)) := rfl

/-- Full characterization of one passenger exchange against the
pre-exchange store: the selected deboarders are all marked first; then the
waiting list — unchanged by the deboarding, whose rows were `boarded` —
is sliced to the seats left after deboarding and marked boarded.  The
train's count moves by the two list lengths and every train's ledger count
moves with it. -/
theorem exchange_char (s : Session) (tid : Nat) (sid : Option Nat)
    (now : Int) (t : TrainRec)
    (hnd : (pids s.current.passengers).Nodup)
    (hT : lookupT s.current.trains tid = some t) :
    (handle_passenger_exchange s tid sid now).current.passengers
        = (s.current.passengers.map
            (deboardMark (pids (exchDeb s.current tid sid)) sid now)).map
            (boardMark (pids (exchBoard s.current tid sid t)) tid now) ∧
    (handle_passenger_exchange s tid sid now).current.trains
        = updT s.current.trains tid (fun u =>
            addCount ((exchBoard s.current tid sid t).length : Int)
              (subCount ((exchDeb s.current tid sid).length : Int) u)) ∧
    (handle_passenger_exchange s tid sid now).current.sim = s.current.sim ∧
    (handle_passenger_exchange s tid sid now).current.routes
        = s.current.routes ∧
    (handle_passenger_exchange s tid sid now).current.stations
        = s.current.stations ∧
    (∀ tid' : Nat,
      (((handle_passenger_exchange s tid sid now).current.passengers.countP
          (boardedPred tid') : Int))
        = (s.current.passengers.countP (boardedPred tid') : Int)
          + (if tid' = tid
              then ((exchBoard s.current tid sid t).length : Int)
                - ((exchDeb s.current tid sid).length : Int)
              else 0)) := by
  obtain ⟨hDnd, hDmem⟩ := exchDeb_spec s.current tid sid hnd
  obtain ⟨h1p, h1t, h1sim, h1rts, h1st, h1cnt⟩ :=
    deboardLoop_char tid sid now (exchDeb s.current tid sid) s hnd hDnd hDmem
  have hW : exchWait (deboardLoop tid sid now
      (exchDeb s.current tid sid) s).current sid
      = exchWait s.current sid := by
    unfold exchWait get_waiting_passengers_at_station
    rw [h1p]
    exact waiting_filter_deboardMark _ _ sid now hnd
      (fun p hp => ⟨(hDmem p hp).1, (hDmem p hp).2.1⟩)
  have hT1 : lookupT (deboardLoop tid sid now
      (exchDeb s.current tid sid) s).current.trains tid
      = some (subCount ((exchDeb s.current tid sid).length : Int) t) := by
    rw [h1t,
      lookupT_updT_self _ _ (subCount ((exchDeb s.current tid sid).length
        : Int)) (fun u => rfl), hT]
    rfl
  have hB : pySliceTo (exchWait (deboardLoop tid sid now
        (exchDeb s.current tid sid) s).current sid)
        ((subCount ((exchDeb s.current tid sid).length : Int)
            t).passenger_capacity
          - (subCount ((exchDeb s.current tid sid).length : Int)
            t).current_passenger_count)
      = exchBoard s.current tid sid t := by
    rw [hW]
    rfl
  have hndP1 : (pids (deboardLoop tid sid now
      (exchDeb s.current tid sid) s).current.passengers).Nodup := by
    rw [h1p, pids_map _ _ (fun q => deboardMark_pid _ sid now q)]
    exact hnd
  have hBsub : List.Sublist (exchBoard s.current tid sid t)
      (exchWait s.current sid) := pySliceTo_sublist _ _
  have hWsub : List.Sublist (exchWait s.current sid) s.current.passengers :=
    List.filter_sublist _
  have hBnd : (pids (exchBoard s.current tid sid t)).Nodup :=
    pids_nodup_of_sublist (hBsub.trans hWsub) hnd
  obtain ⟨hWnd, hWmem⟩ := exchWait_spec s.current sid hnd
  have hBhyp : ∀ p ∈ exchBoard s.current tid sid t,
      lookupP (deboardLoop tid sid now
          (exchDeb s.current tid sid) s).current.passengers p.passenger_id
        = some p ∧ p.status = PStatus.waiting := by
    intro p hp
    have hpW := hBsub.subset hp
    obtain ⟨hlk, hst, hcs⟩ := hWmem p hpW
    have hnk : p.passenger_id ∉ pids (exchDeb s.current tid sid) := by
      intro hk
      rcases List.mem_map.mp hk with ⟨d, hd, hdp⟩
      have hdl := (hDmem d hd).1
      rw [hdp] at hdl
      have hde : d = p := Option.some.inj (hdl.symm.trans hlk)
      have hdb := (hDmem d hd).2.1
      rw [hde, hst] at hdb
      exact absurd hdb (by simp)
    refine ⟨?_, hst⟩
    rw [h1p, lookupP_map _ _ (fun q => deboardMark_pid _ sid now q), hlk]
    simp only [Option.map_some']
    have hmkp : deboardMark (pids (exchDeb s.current tid sid)) sid now p
        = p := by
      unfold deboardMark
      rw [if_neg (by simpa using hnk)]
    rw [hmkp]
  obtain ⟨h2p, h2t, h2sim, h2rts, h2st, h2cnt⟩ :=
    boardLoop_char tid now (exchBoard s.current tid sid t)
      (deboardLoop tid sid now (exchDeb s.current tid sid) s)
      hndP1 hBnd hBhyp
  rw [exchange_unfold, hT1]
  dsimp only
  rw [hB]
  refine ⟨?_, ?_, ?_, ?_, ?_, ?_⟩
  · rw [h2p, h1p]
  · rw [h2t, h1t,
      updT_updT s.current.trains tid
        (subCount ((exchDeb s.current tid sid).length : Int))
        (addCount ((exchBoard s.current tid sid t).length : Int))
        (fun u => rfl)]
  · rw [h2sim, h1sim]
  · rw [h2rts, h1rts]
  · rw [h2st, h1st]
  · intro tid'
    rw [h2cnt tid', h1cnt tid']
    by_cases hq : tid' = tid
    · simp only [hq, if_true]
      ring
    · simp only [hq, if_false]
      ring

/-- C5: at a station arrival's passenger exchange, deboarding completes
before boarding is evaluated: every boarded passenger of the train destined
for the station ends up `arrived` with `boarded_train_id` cleared, and the
seat budget for boarding is computed from the post-deboard count.  Then the
waiting passengers at the station board in store (creation) order as a
prefix of the waiting list: the boarded set is exactly the first
`available_seats = passenger_capacity - current_passenger_count` of them,
its size never exceeds the seat budget, each of them becomes `boarded` on
this train, and every waiting passenger beyond the budget is left
entirely unchanged and still `waiting`.  The final train row records the
deboard decrements followed by the board increments. -/
theorem exchange_deboards_then_boards_fcfs (s : Session) (tid : Nat)
    (sid : Option Nat) (now : Int) (t : TrainRec)
    (hnd : (pids s.current.passengers).Nodup)
    (hT : lookupT s.current.trains tid = some t)
    (hseats : 0 ≤ exchSeats s.current tid sid t) :
    (∀ p ∈ exchDeb s.current tid sid,
      lookupP (handle_passenger_exchange s tid sid now).current.passengers
          p.passenger_id = some (deboardFields sid now p)) ∧
    exchBoard s.current tid sid t
        = (exchWait s.current sid).take
            (exchSeats s.current tid sid t).toNat ∧
    ((exchBoard s.current tid sid t).length : Int)
        ≤ exchSeats s.current tid sid t ∧
    (∀ p ∈ exchBoard s.current tid sid t,
      lookupP (handle_passenger_exchange s tid sid now).current.passengers
          p.passenger_id = some (boardFields tid now p)) ∧
    (∀ p ∈ exchWait s.current sid, p ∉ exchBoard s.current tid sid t →
      p.status = PStatus.waiting ∧
      lookupP (handle_passenger_exchange s tid sid now).current.passengers
          p.passenger_id = some p) ∧
    lookupT (handle_passenger_exchange s tid sid now).current.trains tid
        = some (addCount ((exchBoard s.current tid sid t).length : Int)
            (subCount ((exchDeb s.current tid sid).length : Int) t)) := by
  obtain ⟨hP, hTr, _, _, _, _⟩ := exchange_char s tid sid now t hnd hT
  obtain ⟨hDnd, hDmem⟩ := exchDeb_spec s.current tid sid hnd
  obtain ⟨hWnd, hWmem⟩ := exchWait_spec s.current sid hnd
  have hBsub : List.Sublist (exchBoard s.current tid sid t)
      (exchWait s.current sid) := pySliceTo_sublist _ _
  have hlook : ∀ pid : Nat,
      lookupP (handle_passenger_exchange s tid sid now).current.passengers
          pid
        = ((lookupP s.current.passengers pid).map
            (deboardMark (pids (exchDeb s.current tid sid)) sid now)).map
            (boardMark (pids (exchBoard s.current tid sid t)) tid now) := by
    intro pid
    rw [hP, lookupP_map _ _ (fun q => boardMark_pid _ tid now q),
      lookupP_map _ _ (fun q => deboardMark_pid _ sid now q)]
  have hdisj : ∀ pid, pid ∈ pids (exchDeb s.current tid sid) →
      pid ∉ pids (exchBoard s.current tid sid t) := by
    intro pid hkD hkB
    rcases List.mem_map.mp hkD with ⟨d, hd, hdp⟩
    rcases List.mem_map.mp hkB with ⟨b, hb, hbp⟩
    have hdl := (hDmem d hd).1
    have hbW := hBsub.subset hb
    have hbl := (hWmem b hbW).1
    rw [hdp] at hdl
    rw [hbp] at hbl
    have hdb : d = b := Option.some.inj (hdl.symm.trans hbl)
    have h1 := (hDmem d hd).2.1
    have h2 := (hWmem b hbW).2.1
    rw [hdb, h2] at h1
    exact absurd h1 (by simp)
  have hBeq : exchBoard s.current tid sid t
      = (exchWait s.current sid).take
          (exchSeats s.current tid sid t).toNat :=
    pySliceTo_nonneg _ _ hseats
  refine ⟨?_, hBeq, ?_, ?_, ?_, ?_⟩
  · intro p hp
    have hkD : p.passenger_id ∈ pids (exchDeb s.current tid sid) :=
      List.mem_map_of_mem _ hp
    rw [hlook, (hDmem p hp).1]
    simp only [Option.map_some']
    have h1 : deboardMark (pids (exchDeb s.current tid sid)) sid now p
        = deboardFields sid now p := by
      unfold deboardMark
      rw [if_pos (by simpa using hkD)]
    rw [h1]
    have hkB : (deboardFields sid now p).passenger_id
        ∉ pids (exchBoard s.current tid sid t) := by
      have := hdisj p.passenger_id hkD
      simpa using this
    have h2 : boardMark (pids (exchBoard s.current tid sid t)) tid now
        (deboardFields sid now p) = deboardFields sid now p := by
      unfold boardMark
      rw [if_neg (by simpa using hkB)]
    rw [h2]
  · have hlen : (exchBoard s.current tid sid t).length
        ≤ (exchSeats s.current tid sid t).toNat := by
      rw [hBeq, List.length_take]
      exact Nat.min_le_left _ _
    have hcast : ((exchBoard s.current tid sid t).length : Int)
        ≤ ((exchSeats s.current tid sid t).toNat : Int) := by
      exact_mod_cast hlen
    rw [Int.toNat_of_nonneg hseats] at hcast
    exact hcast
  · intro p hp
    have hpW := hBsub.subset hp
    obtain ⟨hlk, hst, _⟩ := hWmem p hpW
    have hnkD : p.passenger_id ∉ pids (exchDeb s.current tid sid) :=
      fun hk => hdisj p.passenger_id hk (List.mem_map_of_mem _ hp)
    have hkB : p.passenger_id ∈ pids (exchBoard s.current tid sid t) :=
      List.mem_map_of_mem _ hp
    rw [hlook, hlk]
    simp only [Option.map_some']
    have h1 : deboardMark (pids (exchDeb s.current tid sid)) sid now p
        = p := by
      unfold deboardMark
      rw [if_neg (by simpa using hnkD)]
    rw [h1]
    have h2 : boardMark (pids (exchBoard s.current tid sid t)) tid now p
        = boardFields tid now p := by
      unfold boardMark
      rw [if_pos (by simpa using hkB)]
    rw [h2]
  · intro p hpW hpnB
    obtain ⟨hlk, hst, _⟩ := hWmem p hpW
    refine ⟨hst, ?_⟩
    have hnkD : p.passenger_id ∉ pids (exchDeb s.current tid sid) := by
      intro hk
      rcases List.mem_map.mp hk with ⟨d, hd, hdp⟩
      have hdl := (hDmem d hd).1
      rw [hdp] at hdl
      have hde : d = p := Option.some.inj (hdl.symm.trans hlk)
      have hdb := (hDmem d hd).2.1
      rw [hde, hst] at hdb
      exact absurd hdb (by simp)
    have hnkB : p.passenger_id ∉ pids (exchBoard s.current tid sid t) := by
      intro hk
      rcases List.mem_map.mp hk with ⟨b, hb, hbp⟩
      have hbl := (hWmem b (hBsub.subset hb)).1
      rw [hbp] at hbl
      have hbe : b = p := Option.some.inj (hbl.symm.trans hlk)
      rw [hbe] at hb
      exact hpnB hb
    rw [hlook, hlk]
    simp only [Option.map_some']
    have h1 : deboardMark (pids (exchDeb s.current tid sid)) sid now p
        = p := by
      unfold deboardMark
      rw [if_neg (by simpa using hnkD)]
    have h2 : boardMark (pids (exchBoard s.current tid sid t)) tid now p
        = p := by
      unfold boardMark
      rw [if_neg (by simpa using hnkB)]
    rw [h1, h2]
  · rw [hTr,
      lookupT_updT_self _ _ (fun u =>
        addCount ((exchBoard s.current tid sid t).length : Int)
          (subCount ((exchDeb s.current tid sid).length : Int) u))
        (fun u => rfl), hT]
    rfl

/-- Witness for C5 on the concrete exchange store: train 5 (capacity 2,
one passenger aboard) exchanges at station 9 — the aboard passenger
deboards, and of the three waiting passengers exactly the first two (ids
2 and 3) board. -/
theorem exchange_deboards_then_boards_fcfs_witness :
    (pids sessionEx.current.passengers).Nodup ∧
    lookupT sessionEx.current.trains 5 = some trainEx ∧
    0 ≤ exchSeats sessionEx.current 5 (some 9) trainEx ∧
    (∀ p ∈ exchDeb sessionEx.current 5 (some 9),
      lookupP (handle_passenger_exchange sessionEx 5 (some 9)
          7).current.passengers p.passenger_id
        = some (deboardFields (some 9) 7 p)) ∧
    exchBoard sessionEx.current 5 (some 9) trainEx = [paxW1, paxW2] ∧
    (∀ p ∈ exchBoard sessionEx.current 5 (some 9) trainEx,
      lookupP (handle_passenger_exchange sessionEx 5 (some 9)
          7).current.passengers p.passenger_id
        = some (boardFields 5 7 p)) :=
  ⟨by decide, by decide, by decide,
    (exchange_deboards_then_boards_fcfs sessionEx 5 (some 9) 7 trainEx
      (by decide) (by decide) (by decide)).1,
    by decide,
    (exchange_deboards_then_boards_fcfs sessionEx 5 (some 9) 7 trainEx
      (by decide) (by decide) (by decide)).2.2.2.1⟩

/-- C7 counterexample: `PATCH /trains/{id}` (`TrainService.update_train`)
applies whatever `current_passenger_count` the request carries with no
validation against `passenger_capacity`, so the exposed operation breaks
`0 ≤ current_passenger_count ≤ passenger_capacity` directly: on a store
whose only train has capacity 2 and count 0, patching count to 5 is
accepted and committed. -/
theorem patch_breaks_capacity_invariant_cex :
    ∃ t, lookupT (update_train sessionPatch 1
        { current_passenger_count := some 5 }).2.current.trains 1 = some t
      ∧ t.passenger_capacity < t.current_passenger_count
      ∧ lookupT (update_train sessionPatch 1
          { current_passenger_count := some 5 }).2.committed.trains 1
        = some t := by
  refine ⟨applyKwargs { current_passenger_count := some 5 } trainSmall,
    by decide, by decide, by decide⟩

/-! ## Count/capacity preservation along the stepper -/

/-- A keyed train mutation that touches neither the count nor the capacity
nor the key preserves `CountsOk` (the passengers are untouched, so every
ledger count is unchanged). -/
theorem CountsOk_withTrains_updT (db : DB) (tid : Nat)
    (f : TrainRec → TrainRec)
    (hfc : ∀ u, (f u).current_passenger_count = u.current_passenger_count)
    (hfk : ∀ u, (f u).passenger_capacity = u.passenger_capacity)
    (hfi : ∀ u, (f u).train_id = u.train_id)
    (hc : CountsOk db) : CountsOk (db.withTrains (updT db.trains tid f)) := by
  intro u hu
  have hu' : u ∈ updT db.trains tid f := hu
  rcases List.mem_map.mp hu' with ⟨v, hv, hvu⟩
  have hkey : u.current_passenger_count = v.current_passenger_count ∧
      u.passenger_capacity = v.passenger_capacity ∧
      u.train_id = v.train_id := by
    rw [← hvu]
    by_cases hcnd : (v.train_id == tid) = true
    · rw [if_pos hcnd]
      exact ⟨hfc v, hfk v, hfi v⟩
    · rw [if_neg hcnd]
      exact ⟨rfl, rfl, rfl⟩
  obtain ⟨h1, h2, h3⟩ := hkey
  obtain ⟨hc1, hc2, hc3⟩ := hc v hv
  refine ⟨?_, ?_, ?_⟩
  · rw [h1, h3]
    exact hc1
  · rw [h1]
    exact hc2
  · rw [h1, h2]
    exact hc3

/-- The passenger exchange preserves `CountsOk`: deboarding cannot push the
count below the ledger's zero, and boarding is bounded by the seat budget
computed after deboarding, so the count stays within capacity and equal to
the ledger. -/
theorem exchange_CountsOk (s : Session) (tid : Nat) (sid : Option Nat)
    (now : Int) (t : TrainRec)
    (hT : lookupT s.current.trains tid = some t)
    (hndP : (pids s.current.passengers).Nodup)
    (hndT : (tids s.current.trains).Nodup)
    (hc : CountsOk s.current) :
    CountsOk (handle_passenger_exchange s tid sid now).current ∧
    pids (handle_passenger_exchange s tid sid now).current.passengers
      = pids s.current.passengers ∧
    tids (handle_passenger_exchange s tid sid now).current.trains
      = tids s.current.trains := by
  obtain ⟨hP, hTr, hsim, hrts, hst, hcnt⟩ :=
    exchange_char s tid sid now t hndP hT
  have hpids : pids (handle_passenger_exchange s tid sid
      now).current.passengers = pids s.current.passengers := by
    rw [hP, pids_map _ _ (fun q => boardMark_pid _ tid now q),
      pids_map _ _ (fun q => deboardMark_pid _ sid now q)]
  have htids : tids (handle_passenger_exchange s tid sid now).current.trains
      = tids s.current.trains := by
    rw [hTr,
      tids_updT _ _ (fun u =>
        addCount ((exchBoard s.current tid sid t).length : Int)
          (subCount ((exchDeb s.current tid sid).length : Int) u))
        (fun u => rfl)]
  refine ⟨?_, hpids, htids⟩
  obtain ⟨hts, htid⟩ := mem_of_lookupT hT
  obtain ⟨hct, hc0, hccap⟩ := hc t hts
  have hDnn : (0 : Int) ≤ ((exchDeb s.current tid sid).length : Int) :=
    Int.ofNat_nonneg _
  have hseats : 0 ≤ exchSeats s.current tid sid t := by
    unfold exchSeats
    omega
  have hBlen : ((exchBoard s.current tid sid t).length : Int)
      ≤ exchSeats s.current tid sid t := by
    have hlen : (exchBoard s.current tid sid t).length
        ≤ (exchSeats s.current tid sid t).toNat := by
      rw [show exchBoard s.current tid sid t
          = (exchWait s.current sid).take
            (exchSeats s.current tid sid t).toNat
        from pySliceTo_nonneg _ _ hseats, List.length_take]
      exact Nat.min_le_left _ _
    have hcast : ((exchBoard s.current tid sid t).length : Int)
        ≤ ((exchSeats s.current tid sid t).toNat : Int) := by
      exact_mod_cast hlen
    rw [Int.toNat_of_nonneg hseats] at hcast
    exact hcast
  intro u hu
  rw [hTr] at hu
  rcases List.mem_map.mp hu with ⟨v, hv, hvu⟩
  obtain ⟨hcv, h0v, hcapv⟩ := hc v hv
  have hledger := hcnt v.train_id
  by_cases hcnd : (v.train_id == tid) = true
  · have hvid : v.train_id = tid := by simpa using hcnd
    have hvt : v = t := eq_of_mem_same_tid hndT hv hts (hvid.trans htid.symm)
    have hcv' : v.current_passenger_count
        = (s.current.passengers.countP (boardedPred v.train_id) : Int) := hcv
    have hucount : u.current_passenger_count
        = v.current_passenger_count
          - ((exchDeb s.current tid sid).length : Int)
          + ((exchBoard s.current tid sid t).length : Int) := by
      rw [← hvu, if_pos hcnd]
      rfl
    have huid : u.train_id = v.train_id := by
      rw [← hvu, if_pos hcnd]
      rfl
    have hucap : u.passenger_capacity = v.passenger_capacity := by
      rw [← hvu, if_pos hcnd]
      rfl
    have hled : ((( handle_passenger_exchange s tid sid
        now).current.passengers.countP (boardedPred v.train_id)) : Int)
        = (s.current.passengers.countP (boardedPred v.train_id) : Int)
          + (((exchBoard s.current tid sid t).length : Int)
            - ((exchDeb s.current tid sid).length : Int)) := by
      rw [hledger, if_pos hvid]
    refine ⟨?_, ?_, ?_⟩
    · show u.current_passenger_count
        = ((handle_passenger_exchange s tid sid
            now).current.passengers.countP (boardedPred u.train_id) : Int)
      rw [huid, hled, hucount, ← hcv']
      ring
    · have hnn : (0 : Int) ≤ (((handle_passenger_exchange s tid sid
          now).current.passengers.countP (boardedPred u.train_id)) : Int) :=
        Int.ofNat_nonneg _
      have : u.current_passenger_count
          = ((handle_passenger_exchange s tid sid
              now).current.passengers.countP (boardedPred u.train_id)
            : Int) := by
        rw [huid, hled, hucount, ← hcv']
        ring
      omega
    · rw [hucount, hucap]
      have hsv : exchSeats s.current tid sid t
          = t.passenger_capacity - (t.current_passenger_count
            - ((exchDeb s.current tid sid).length : Int)) := rfl
      rw [hvt]
      omega
  · have hvu' : u = v := by
      rw [← hvu, if_neg hcnd]
    have hvid : ¬ v.train_id = tid := by simpa using hcnd
    have hled : ((( handle_passenger_exchange s tid sid
        now).current.passengers.countP (boardedPred v.train_id)) : Int)
        = (s.current.passengers.countP (boardedPred v.train_id) : Int) := by
      rw [hledger, if_neg hvid]
      ring
    rw [hvu']
    refine ⟨?_, h0v, hcapv⟩
    show v.current_passenger_count
      = ((handle_passenger_exchange s tid sid
          now).current.passengers.countP (boardedPred v.train_id) : Int)
    rw [hled]
    exact hcv

/-- One successful per-train update preserves `CountsOk` together with the
tables' key lists: the non-arrival branches touch neither counts nor
capacities, and the arrival branch's exchange is covered by
`exchange_CountsOk`. -/
theorem uts_CountsOk (s : Session) (tid : Nat) (now : Int) (s' : Session)
    (hok : update_train_state s tid now = .ok s')
    (hndP : (pids s.current.passengers).Nodup)
    (hndT : (tids s.current.trains).Nodup)
    (hc : CountsOk s.current) :
    CountsOk s'.current ∧
    pids s'.current.passengers = pids s.current.passengers ∧
    tids s'.current.trains = tids s.current.trains := by
  rcases uts_forms s tid now with herr | hid | ⟨w, hdep⟩ | hbet
    | ⟨train, sid, pa, g, hT, hg, harr⟩
  · rw [herr] at hok
    cases hok
  · rw [hid] at hok
    cases hok
    exact ⟨hc, rfl, rfl⟩
  · rw [hdep] at hok
    cases hok
    refine ⟨?_, rfl, ?_⟩
    · exact CountsOk_withTrains_updT s.current tid _
        (fun u => departFields_count now w u)
        (fun u => departFields_cap now w u)
        (fun u => departFields_id now w u) hc
    · exact tids_updT _ _ _ (fun u => departFields_id now w u)
  · rw [hbet] at hok
    cases hok
    refine ⟨?_, rfl, ?_⟩
    · exact CountsOk_withTrains_updT s.current tid _
        (fun u => betweenFields_count u) (fun u => betweenFields_cap u)
        (fun u => betweenFields_id u) hc
    · exact tids_updT _ _ _ (fun u => betweenFields_id u)
  · rw [harr] at hok
    cases hok
    have hcA : CountsOk (mutTrain s tid (arriveFields sid now pa)).current :=
      CountsOk_withTrains_updT s.current tid _
        (fun u => arriveFields_count sid now pa u)
        (fun u => arriveFields_cap sid now pa u)
        (fun u => arriveFields_id sid now pa u) hc
    have hpA : pids (mutTrain s tid (arriveFields sid now
        pa)).current.passengers = pids s.current.passengers := rfl
    have htA : tids (mutTrain s tid (arriveFields sid now
        pa)).current.trains = tids s.current.trains :=
      tids_updT _ _ _ (fun u => arriveFields_id sid now pa u)
    have hTA : lookupT (mutTrain s tid (arriveFields sid now
        pa)).current.trains tid = some (arriveFields sid now pa train) := by
      show lookupT (updT s.current.trains tid (arriveFields sid now pa)) tid
        = _
      rw [lookupT_updT_self _ _ (arriveFields sid now pa)
        (fun u => arriveFields_id sid now pa u), hT]
      rfl
    have hndPA : (pids (mutTrain s tid (arriveFields sid now
        pa)).current.passengers).Nodup := hndP
    have hndTA : (tids (mutTrain s tid (arriveFields sid now
        pa)).current.trains).Nodup := by
      rw [htA]
      exact hndT
    obtain ⟨hcX, hpX, htX⟩ := exchange_CountsOk
      (mutTrain s tid (arriveFields sid now pa)) tid sid now
      (arriveFields sid now pa train) hTA hndPA hndTA hcA
    have hgc : (∀ u, (g u).current_passenger_count
        = u.current_passenger_count) ∧
        (∀ u, (g u).passenger_capacity = u.passenger_capacity) ∧
        (∀ u, (g u).train_id = u.train_id) := by
      rcases hg with hg | hg <;> rw [hg]
      · exact ⟨fun u => completeFields_count now u,
          fun u => completeFields_cap now u,
          fun u => completeFields_id now u⟩
      · exact ⟨fun u => advanceFields_count u, fun u => advanceFields_cap u,
          fun u => advanceFields_id u⟩
    refine ⟨?_, ?_, ?_⟩
    · exact CountsOk_withTrains_updT _ tid g hgc.1 hgc.2.1 hgc.2.2 hcX
    · exact hpX.trans hpA
    · exact (tids_updT _ _ g hgc.2.2).trans (htX.trans htA)

/-- The whole per-train loop preserves `CountsOk` when it succeeds. -/
theorem runUpdates_CountsOk :
    ∀ (rem : List Nat) (s : Session) (now : Int) (s' : Session),
    runUpdates rem s now = .ok s' →
    (pids s.current.passengers).Nodup →
    (tids s.current.trains).Nodup →
    CountsOk s.current →
    CountsOk s'.current ∧
    pids s'.current.passengers = pids s.current.passengers ∧
    tids s'.current.trains = tids s.current.trains := by
  intro rem
  induction rem with
  | nil =>
    intro s now s' h hp ht hc
    simp only [runUpdates] at h
    cases h
    exact ⟨hc, rfl, rfl⟩
  | cons tid rest ih =>
    intro s now s' h hp ht hc
    cases hu : update_train_state s tid now with
    | error e =>
      simp [runUpdates, hu] at h
    | ok s1 =>
      simp only [runUpdates, hu] at h
      obtain ⟨hc1, hp1, ht1⟩ := uts_CountsOk s tid now s1 hu hp ht hc
      obtain ⟨hc2, hp2, ht2⟩ := ih s1 now s' h
        (by rw [hp1]; exact hp) (by rw [ht1]; exact ht) hc1
      exact ⟨hc2, hp2.trans hp1, ht2.trans ht1⟩

/-- C7 (amended): a *successful* step keeps every train's
`current_passenger_count` equal to the number of passengers boarded on it
and within `[0, passenger_capacity]`, in both the committed and the
in-transaction view (the step ends with a commit).  The unvalidated PATCH
path (`update_train`) is excluded — see the counterexample. -/
theorem step_preserves_count_capacity (s : Session) (wall m : Int)
    (hwf : WFdb s.current) (hc : CountsOk s.current) :
    ∀ stF, (step_simulation s wall m).1 = Except.ok stF →
      CountsOk (step_simulation s wall m).2.current ∧
      CountsOk (step_simulation s wall m).2.committed := by
  intro stF hok
  cases hsim : s.current.sim with
  | none =>
    have hbad : (step_simulation s wall m).1 = .error .notInit := by
      unfold step_simulation
      rw [hsim]
    rw [hbad] at hok
    cases hok
  | some st0 =>
    rw [step_unfold s wall m st0 hsim] at hok ⊢
    cases hrun : runUpdates
        (tids ((stepEntry s wall m st0).current.trains.filter
          isActiveStatus))
        (stepEntry s wall m st0)
        (st0.current_simulated_datetime + m) with
    | error es =>
      rcases es with ⟨e, serr⟩
      rw [hrun] at hok
      dsimp only at hok
      cases hok
    | ok s2 =>
      rw [hrun] at hok
      dsimp only at hok ⊢
      obtain ⟨hc2, hp2, ht2⟩ := runUpdates_CountsOk _ _ _ _ hrun
        (by exact hwf.2) (by exact hwf.1) (by exact hc)
      cases hsim2 : (commitS s2).current.sim with
      | some simF => exact ⟨hc2, hc2⟩
      | none => exact ⟨hc2, hc2⟩

/-- Witness for C7's amended theorem at Scenario A: the step succeeds and
both session views keep every count equal to its ledger and within
capacity. -/
theorem step_preserves_count_capacity_witness :
    (WFdb sessionA.current ∧ CountsOk sessionA.current ∧
      (step_simulation sessionA 999 60).1
        = Except.ok ⟨60, 60, false, 999⟩) ∧
    CountsOk (step_simulation sessionA 999 60).2.current ∧
    CountsOk (step_simulation sessionA 999 60).2.committed := by
  have hwf : WFdb sessionA.current := ⟨by decide, by decide⟩
  have hc : CountsOk sessionA.current := by
    unfold CountsOk
    decide
  have hok : (step_simulation sessionA 999 60).1
      = Except.ok ⟨60, 60, false, 999⟩ := by decide
  have h := step_preserves_count_capacity sessionA 999 60 hwf hc
    ⟨60, 60, false, 999⟩ hok
  exact ⟨⟨hwf, hc, hok⟩, h.1, h.2⟩

end TrainSim